import Mathlib

/-!
# glyphy `geometry.hh`: a verification development

The header `src/geometry.hh` is a small 2-D geometry kernel over `double`
(`typedef double Coord; typedef double Scalar;`).  The functions are embedded twice,
with the same shape as the C++ code.

* Over *exact extended numbers* (`Double K`): a finite value of an ordered field `K`, or
  one of `+inf`, `-inf`, `NaN`.  Rounding, overflow, subnormals and the sign of zero are
  not modelled; the special values and their propagation (the `INFINITY` sentinel of
  line intersection, division by zero) are.  `hypot` of `<math.h>` is a parameter
  `hypot : K → K → K`; the theorems that need it assume `IsHypot hypot` (non-negative,
  squares to `a*a + b*b`).  This is the setting of every statement made "in exact
  arithmetic".
* Over IEEE 754 binary64 (`Binary64.F64`): every operation rounds to nearest, ties to
  even, overflows to an infinity and underflows gradually; `hypot` is the correctly
  rounded square root.  This is what the machine computes (the sign of zero apart), and
  it is used to evaluate the code at concrete inputs.
-/

set_option linter.unusedSectionVars false

namespace Glyphy

/-- The model of C `double`: an exact finite value, `+inf`, `-inf` or `NaN`. -/
inductive Double (K : Type) where
  | fin (x : K) : Double K
  | pinf : Double K
  | ninf : Double K
  | nan : Double K

namespace Double

variable {K : Type} [LinearOrderedField K]

/-- Literals `0`, `1`, `2`, `3`, ... (C converts the `int` literal to `double`). -/
instance instOfNat (n : Nat) [OfNat K n] : OfNat (Double K) n := ⟨fin (OfNat.ofNat n)⟩

/-- The constant `INFINITY` of `<math.h>`. -/
def INFINITY : Double K := pinf

/-- The infinity carrying the sign of `x`; `NaN` when `x` is zero
(`0 * inf`, `0 / 0`). -/
def signedInf (x : K) : Double K :=
  if x = 0 then nan else if 0 < x then pinf else ninf

/-- Unary minus. -/
def neg : Double K → Double K
  | fin x => fin (-x)
  | pinf => ninf
  | ninf => pinf
  | nan => nan

/-- Addition: the exact sum of finite values (no rounding, no overflow); `inf + (-inf)` is
`NaN`, `NaN` propagates. -/
def add : Double K → Double K → Double K
  | fin x, fin y => fin (x + y)
  | fin _, pinf => pinf
  | fin _, ninf => ninf
  | pinf, fin _ => pinf
  | pinf, pinf => pinf
  | pinf, ninf => nan
  | ninf, fin _ => ninf
  | ninf, ninf => ninf
  | ninf, pinf => nan
  | nan, _ => nan
  | _, nan => nan

/-- Subtraction, `a - b = a + (-b)`. -/
def sub (a b : Double K) : Double K := add a (neg b)

/-- Multiplication: the exact product of finite values (no rounding, overflow or
underflow); `0 * inf` is `NaN`, otherwise the sign rule. -/
def mul : Double K → Double K → Double K
  | fin x, fin y => fin (x * y)
  | fin x, pinf => signedInf x
  | fin x, ninf => signedInf (-x)
  | pinf, fin y => signedInf y
  | ninf, fin y => signedInf (-y)
  | pinf, pinf => pinf
  | ninf, ninf => pinf
  | pinf, ninf => ninf
  | ninf, pinf => ninf
  | nan, _ => nan
  | _, nan => nan

/-- Division: the exact quotient of finite values (no rounding); a finite non-zero value
over zero is an infinity of its sign, `0 / 0` and `inf / inf` are `NaN`, a finite value
over an infinity is zero. There is one zero: a zero divisor is read as `+0`, so the
result of dividing by `-0.0` has the opposite sign of the machine's. -/
def div : Double K → Double K → Double K
  | fin x, fin y => if y = 0 then signedInf x else fin (x / y)
  | fin _, pinf => fin 0
  | fin _, ninf => fin 0
  | pinf, fin y => if 0 ≤ y then pinf else ninf
  | ninf, fin y => if 0 ≤ y then ninf else pinf
  | pinf, pinf => nan
  | pinf, ninf => nan
  | ninf, pinf => nan
  | ninf, ninf => nan
  | nan, _ => nan
  | _, nan => nan

instance : Neg (Double K) := ⟨neg⟩
instance : Add (Double K) := ⟨add⟩
instance : Sub (Double K) := ⟨sub⟩
instance : Mul (Double K) := ⟨mul⟩
instance : Div (Double K) := ⟨div⟩

/-- Conversion of a `double` to `bool` (`d ? .. : ..`, `!d`, `a || b`): true unless the
value compares equal to zero; infinities and `NaN` are true. -/
def toBool : Double K → Bool
  | fin x => decide (x ≠ 0)
  | _ => true

/-- The comparison `a == b` of two doubles: `NaN` equals nothing. -/
def eq : Double K → Double K → Bool
  | fin x, fin y => decide (x = y)
  | pinf, pinf => true
  | ninf, ninf => true
  | _, _ => false

/-- The function `hypot (x, y)` of `<math.h>` lifted to the special values: an infinite
argument gives `+inf` (even against `NaN`), otherwise `NaN` propagates. -/
def hypot (h : K → K → K) : Double K → Double K → Double K
  | fin x, fin y => fin (h x y)
  | pinf, _ => pinf
  | ninf, _ => pinf
  | _, pinf => pinf
  | _, ninf => pinf
  | nan, _ => nan
  | _, nan => nan

/-- The number a finite value stands for (`0` for `inf`, `-inf`, `NaN`). -/
def value : Double K → K
  | fin x => x
  | _ => 0

/-- The macro `isnormal (x)` of `<math.h>`: neither zero, infinite nor `NaN` (the
subnormal range has no counterpart among exact values). -/
def isnormal : Double K → Bool
  | fin x => decide (x ≠ 0)
  | _ => false

/-- A value is finite: neither an infinity nor `NaN`. -/
def isFinite : Double K → Bool
  | fin _ => true
  | _ => false

end Double

/-- What the exact-arithmetic statements assume of the `<math.h>` function `hypot` on
finite arguments: the exact non-negative square root of `a*a + b*b`. The machine's
`hypot` rounds and overflows and does not meet this; `Binary64.F64.hypot` is its
counterpart on doubles. -/
structure IsHypot {K : Type} [LinearOrderedField K] (hypot : K → K → K) : Prop where
  nonneg : ∀ a b, 0 ≤ hypot a b
  sq : ∀ a b, hypot a b * hypot a b = a * a + b * b

/-- C++ `struct Pair`. -/
structure Pair (T : Type) where
  first : T
  second : T

/-- C++ `struct Vector`. -/
structure Vector (K : Type) where
  dx : Double K
  dy : Double K

/-- C++ `struct Point`. -/
structure Point (K : Type) where
  x : Double K
  y : Double K

/-- C++ `struct Line`: `a*x + b*y = c`. -/
structure Line (K : Type) where
  a : Double K
  b : Double K
  c : Double K

/-- C++ `struct Circle`. -/
structure Circle (K : Type) where
  c : Point K
  r : Double K

/-- C++ `struct Bezier`. -/
structure Bezier (K : Type) where
  p0 : Point K
  p1 : Point K
  p2 : Point K
  p3 : Point K

section Ops

variable {K : Type} [LinearOrderedField K]

/-- The vector with finite components `dx`, `dy`. -/
def Vector.fin (dx dy : K) : Vector K := ⟨.fin dx, .fin dy⟩

/-- The point with finite coordinates `x`, `y`. -/
def Point.fin (x y : K) : Point K := ⟨.fin x, .fin y⟩

/-- The line with finite coefficients `a`, `b`, `c`. -/
def Line.fin (a b c : K) : Line K := ⟨.fin a, .fin b, .fin c⟩

/-! ### Vector -/

/-- `Vector::operator* (const Scalar &s)`: `dx *= s; dy *= s`. -/
def Vector.mul (v : Vector K) (s : Double K) : Vector K := ⟨v.dx * s, v.dy * s⟩

/-- `Vector::operator/ (const Scalar &s)`: `dx /= s; dy /= s`. -/
def Vector.div (v : Vector K) (s : Double K) : Vector K := ⟨v.dx / s, v.dy / s⟩

/-- `Vector::operator bool`: `dx || dy`. -/
def Vector.toBool (v : Vector K) : Bool := v.dx.toBool || v.dy.toBool

/-- `Vector::operator== (const Vector &v)`: `dx == v.dx && dy == v.dy`. -/
def Vector.eq (self v : Vector K) : Bool := self.dx.eq v.dx && self.dy.eq v.dy

/-- `Vector::operator- (void)`: `Vector (-dx, -dy)`. -/
def Vector.neg (v : Vector K) : Vector K := ⟨-v.dx, -v.dy⟩

/-- `Vector::len`: `hypot (dx, dy)`. -/
def Vector.len (hypot : K → K → K) (v : Vector K) : Double K :=
  Double.hypot hypot v.dx v.dy

/-- `Vector::normalized`: `d = len (); return d ? *this / d : *this`. -/
def Vector.normalized (hypot : K → K → K) (v : Vector K) : Vector K :=
  let d := v.len hypot
  if d.toBool then v.div d else v

/-- `Vector::perpendicular`: `Vector (-dy, dx)`. -/
def Vector.perpendicular (v : Vector K) : Vector K := ⟨-v.dy, v.dx⟩

/-- `Vector::rebase (const Vector &bx, const Vector &by)`:
`Vector (dx * bx.dx + dy * bx.dy, dx * by.dx + dy * by.dy)`. -/
def Vector.rebaseXY (v bx bY : Vector K) : Vector K :=
  ⟨v.dx * bx.dx + v.dy * bx.dy, v.dx * bY.dx + v.dy * bY.dy⟩

/-- `Vector::rebase (const Vector &bx)`: `rebase (bx, bx.perpendicular ())`. -/
def Vector.rebase (v bx : Vector K) : Vector K := v.rebaseXY bx bx.perpendicular

/-! ### Point -/

/-- `Point::operator bool`: `isnormal (x) && isnormal (y)`. -/
def Point.toBool (p : Point K) : Bool := p.x.isnormal && p.y.isnormal

/-- `Point::operator== (const Point &p)`: `x == p.x && y == p.y`. -/
def Point.eq (self p : Point K) : Bool := self.x.eq p.x && self.y.eq p.y

/-- `Point::operator+ (const Vector &v)`: `x += v.dx; y += v.dy`. -/
def Point.add (p : Point K) (v : Vector K) : Point K := ⟨p.x + v.dx, p.y + v.dy⟩

/-- `Point::operator- (const Point &p)`: `Vector (x - p.x, y - p.y)`. -/
def Point.sub (self p : Point K) : Vector K := ⟨self.x - p.x, self.y - p.y⟩

/-- `Point::operator+ (const Point &p)`, the mid-point: `*this + (p - *this) / 2`. -/
def Point.midpoint (self p : Point K) : Point K :=
  self.add ((p.sub self).div 2)

/-- `Point::operator- (const Line &l)`, the distance to a line:
`(l.a * x + l.b * y - l.c) / hypot (l.a, l.b)`. -/
def Point.distance (hypot : K → K → K) (self : Point K) (l : Line K) : Double K :=
  (l.a * self.x + l.b * self.y - l.c) / Double.hypot hypot l.a l.b

/-- `Point::operator| (const Point &p)`, the segment axis line. -/
def Point.axis (self p : Point K) : Line K :=
  let d := p.sub self
  ⟨d.dx * 2, d.dy * 2, (d.dx * p.x + d.dy * p.y) + (d.dx * self.x + d.dy * self.y)⟩

/-- `Point::lerp (Scalar a, const Point &p)`:
`Point ((1-a) * x + a * p.x, (1-a) * y + a * p.y)`. -/
def Point.lerp (self : Point K) (a : Double K) (p : Point K) : Point K :=
  ⟨(1 - a) * self.x + a * p.x, (1 - a) * self.y + a * p.y⟩

/-! ### Line -/

/-- `Line::Line (const Point &p0, const Point &p1)`:
`n = (p1 - p0).perpendicular (); a = n.dx; b = n.dy; c = n.dx * p0.x + n.dy * p0.y`. -/
def Line.ofPoints (p0 p1 : Point K) : Line K :=
  let n := (p1.sub p0).perpendicular
  ⟨n.dx, n.dy, n.dx * p0.x + n.dy * p0.y⟩

/-- `Line::operator bool`: `a || b`. -/
def Line.toBool (l : Line K) : Bool := l.a.toBool || l.b.toBool

/-- `Line::normal`: `Vector (a, b)`. -/
def Line.normal (l : Line K) : Vector K := ⟨l.a, l.b⟩

/-- `Line::normalized`: `d = normal ().len (); return d ? Line (a / d, b / d, c / d) : *this`. -/
def Line.normalized (hypot : K → K → K) (l : Line K) : Line K :=
  let d := l.normal.len hypot
  if d.toBool then ⟨l.a / d, l.b / d, l.c / d⟩ else l

/-- The determinant `a * l.b - b * l.a` computed by `Line::operator+`. -/
def Line.det (self l : Line K) : Double K := self.a * l.b - self.b * l.a

/-- `Line::operator+ (const Line &l)`, the line intersection. -/
def Line.intersect (self l : Line K) : Point K :=
  let det := self.a * l.b - self.b * l.a
  if !det.toBool then
    ⟨Double.INFINITY, Double.INFINITY⟩
  else
    ⟨(self.c * l.b - self.b * l.c) / det, (self.a * l.c - self.c * l.a) / det⟩

/-! ### Circle -/

/-- `Circle::Circle (p0, p1, p2)`: `c ((p0|p1) + (p2|p1)), r ((c - p0).len ())`. -/
def Circle.ofPoints (hypot : K → K → K) (p0 p1 p2 : Point K) : Circle K :=
  let c := (p0.axis p1).intersect (p2.axis p1)
  ⟨c, (c.sub p0).len hypot⟩

/-! ### Bezier -/

/-- `Bezier::point (Scalar t)`. -/
def Bezier.point (b : Bezier K) (t : Double K) : Point K :=
  let p01 := b.p0.lerp t b.p1
  let p12 := b.p1.lerp t b.p2
  let p23 := b.p2.lerp t b.p3
  let p012 := p01.lerp t p12
  let p123 := p12.lerp t p23
  let p0123 := p012.lerp t p123
  p0123

/-- `Bezier::tangent (Scalar t)`. -/
def Bezier.tangent (b : Bezier K) (t : Double K) : Vector K :=
  let t_2_0 := t * t
  let t_0_2 := (1 - t) * (1 - t)
  let _1__4t_1_0_3t_2_0 := 1 - 4 * t + 3 * t_2_0
  let _2t_1_0_3t_2_0 := 2 * t - 3 * t_2_0
  ⟨(-3) * b.p0.x * t_0_2
     + 3 * b.p1.x * _1__4t_1_0_3t_2_0
     + 3 * b.p2.x * _2t_1_0_3t_2_0
     + 3 * b.p3.x * t_2_0,
   (-3) * b.p0.y * t_0_2
     + 3 * b.p1.y * _1__4t_1_0_3t_2_0
     + 3 * b.p2.y * _2t_1_0_3t_2_0
     + 3 * b.p3.y * t_2_0⟩

/-- `Bezier::normal (Scalar t)`. -/
def Bezier.normal (b : Bezier K) (t : Double K) : Vector K :=
  ⟨6 * ((-b.p0.x + 3 * b.p1.x - 3 * b.p2.x + b.p3.x) * t + (b.p0.x - 2 * b.p1.x + b.p2.x)),
   6 * ((-b.p0.y + 3 * b.p1.y - 3 * b.p2.y + b.p3.y) * t + (b.p0.y - 2 * b.p1.y + b.p2.y))⟩

/-- `Bezier::split (Scalar t)`. -/
def Bezier.split (b : Bezier K) (t : Double K) : Pair (Bezier K) :=
  let p01 := b.p0.lerp t b.p1
  let p12 := b.p1.lerp t b.p2
  let p23 := b.p2.lerp t b.p3
  let p012 := p01.lerp t p12
  let p123 := p12.lerp t p23
  let p0123 := p012.lerp t p123
  ⟨⟨b.p0, p01, p012, p0123⟩, ⟨p0123, p123, p23, b.p3⟩⟩

/-- `Bezier::halve ()`. -/
def Bezier.halve (b : Bezier K) : Pair (Bezier K) :=
  let p01 := b.p0.midpoint b.p1
  let p12 := b.p1.midpoint b.p2
  let p23 := b.p2.midpoint b.p3
  let p012 := p01.midpoint p12
  let p123 := p12.midpoint p23
  let p0123 := p012.midpoint p123
  ⟨⟨b.p0, p01, p012, p0123⟩, ⟨p0123, p123, p23, b.p3⟩⟩

end Ops

/-! ## The same functions over IEEE 754 binary64

The definitions above compute with exact numbers.  The namespace `Binary64` evaluates
the same C++ functions as the machine does: every arithmetic operation returns the exact
result rounded to the nearest binary64 value (ties to even), with overflow to an
infinity and gradual underflow.  It is used to evaluate the code at concrete inputs where
rounding or overflow decides the outcome. -/

namespace Binary64

/-- An IEEE 754 binary64 value: the finite number `m * 2^e`, an infinity or `NaN`.
Arithmetic returns finite values in canonical form (`2^52 ≤ |m| < 2^53` with
`e ≥ -1074`, or `|m| < 2^52` with `e = -1074`, or `m = 0`, `e = 0`); the sign of zero is
not represented. -/
inductive F64 where
  | fin (m : Int) (e : Int) : F64
  | pinf : F64
  | ninf : F64
  | nan : F64
deriving DecidableEq

namespace F64

/-- Binary search for `floor (log2 n)`: the largest `acc + j`, `j < 2^s`, with
`2^(acc + j) ≤ n`. -/
def log2Aux (n : Nat) : Nat → Nat → Nat
  | 0, acc => acc
  | s + 1, acc => if 2 ^ (acc + 2 ^ s) ≤ n then log2Aux n s (acc + 2 ^ s) else log2Aux n s acc

/-- `floor (log2 n)` for `0 < n < 2^65536`. -/
def log2 (n : Nat) : Nat := log2Aux n 16 0

/-- `2^e ≤ n / d`, for positive `n`, `d`. -/
def pow2Le (e : Int) (n d : Nat) : Bool :=
  decide (d * 2 ^ e.toNat ≤ n * 2 ^ (-e).toNat)

/-- `floor (log2 (n / d))` for positive `n`, `d`. -/
def ilog2 (n d : Nat) : Int :=
  let e : Int := (log2 n : Int) - (log2 d : Int)
  if pow2Le e n d then e else e - 1

/-- The rational `n / d` (`d > 0`) rounded to the nearest binary64 value, ties to even:
53 significant bits, gradual underflow below `2^-1022`, overflow to an infinity from
`2^1024 - 2^970` on. -/
def roundRat (n : Int) (d : Nat) : F64 :=
  if n = 0 then fin 0 0 else
  let a := n.natAbs
  let u := max (ilog2 a d - 52) (-1074)
  let num := a * 2 ^ (-u).toNat
  let den := d * 2 ^ u.toNat
  let q := num / den
  let r := num % den
  let M := if 2 * r < den then q else if den < 2 * r then q + 1
    else if q % 2 = 0 then q else q + 1
  if 2 ^ 1024 ≤ M * 2 ^ u.toNat then (if 0 < n then pinf else ninf)
  else if M = 0 then fin 0 0
  else if M = 2 ^ 53 then (if 0 < n then fin (2 ^ 52) (u + 1) else fin (-(2 ^ 52)) (u + 1))
  else (if 0 < n then fin M u else fin (-M) u)

/-- The dyadic number `m * 2^e` rounded to binary64. -/
def roundDyadic (m e : Int) : F64 := roundRat (m * 2 ^ e.toNat) (2 ^ (-e).toNat)

/-- The double nearest to the decimal or fraction `n / d`, as a C literal is read. -/
def ofRat (n : Int) (d : Nat) : F64 := roundRat n d

/-- The double `2^k`. -/
def pow2 (k : Int) : F64 := roundRat (2 ^ k.toNat : Nat) (2 ^ (-k).toNat)

/-- Literals `0`, `1`, `2`, ... (C converts the `int` literal to `double`). -/
instance instOfNat (n : Nat) : OfNat F64 n := ⟨roundRat n 1⟩

/-- The constant `INFINITY` of `<math.h>`. -/
def INFINITY : F64 := pinf

/-- The infinity carrying the sign of `m`; `NaN` when `m` is zero. -/
def signedInf (m : Int) : F64 :=
  if m = 0 then nan else if 0 < m then pinf else ninf

/-- Unary minus (exact). -/
def neg : F64 → F64
  | fin m e => fin (-m) e
  | pinf => ninf
  | ninf => pinf
  | nan => nan

/-- Addition: the exact sum of finite operands, rounded; `inf + (-inf)` is `NaN`. -/
def add : F64 → F64 → F64
  | fin m1 e1, fin m2 e2 =>
    roundDyadic (m1 * 2 ^ (e1 - min e1 e2).toNat + m2 * 2 ^ (e2 - min e1 e2).toNat) (min e1 e2)
  | fin _ _, pinf => pinf
  | fin _ _, ninf => ninf
  | pinf, fin _ _ => pinf
  | pinf, pinf => pinf
  | pinf, ninf => nan
  | ninf, fin _ _ => ninf
  | ninf, ninf => ninf
  | ninf, pinf => nan
  | nan, _ => nan
  | _, nan => nan

/-- Subtraction, `a - b = a + (-b)`. -/
def sub (a b : F64) : F64 := add a (neg b)

/-- Multiplication: the exact product of finite operands, rounded; `0 * inf` is `NaN`. -/
def mul : F64 → F64 → F64
  | fin m1 e1, fin m2 e2 => roundDyadic (m1 * m2) (e1 + e2)
  | fin m _, pinf => signedInf m
  | fin m _, ninf => signedInf (-m)
  | pinf, fin m _ => signedInf m
  | ninf, fin m _ => signedInf (-m)
  | pinf, pinf => pinf
  | ninf, ninf => pinf
  | pinf, ninf => ninf
  | ninf, pinf => ninf
  | nan, _ => nan
  | _, nan => nan

/-- Division: the exact quotient of finite operands, rounded; a non-zero value over zero
is an infinity of its sign (a zero divisor is read as `+0`), `0 / 0` and `inf / inf` are
`NaN`. -/
def div : F64 → F64 → F64
  | fin m1 e1, fin m2 e2 =>
    if m2 = 0 then signedInf m1
    else roundRat (m2.sign * m1 * 2 ^ (e1 - e2).toNat) (m2.natAbs * 2 ^ (e2 - e1).toNat)
  | fin _ _, pinf => fin 0 0
  | fin _ _, ninf => fin 0 0
  | pinf, fin m _ => if 0 ≤ m then pinf else ninf
  | ninf, fin m _ => if 0 ≤ m then ninf else pinf
  | pinf, pinf => nan
  | pinf, ninf => nan
  | ninf, pinf => nan
  | ninf, ninf => nan
  | nan, _ => nan
  | _, nan => nan

instance : Neg F64 := ⟨neg⟩
instance : Add F64 := ⟨add⟩
instance : Sub F64 := ⟨sub⟩
instance : Mul F64 := ⟨mul⟩
instance : Div F64 := ⟨div⟩

/-- Conversion of a `double` to `bool`: true unless the value compares equal to zero. -/
def toBool : F64 → Bool
  | fin m _ => decide (m ≠ 0)
  | _ => true

/-- A value is finite: neither an infinity nor `NaN`. -/
def isFinite : F64 → Bool
  | fin _ _ => true
  | _ => false

/-- Digit-by-digit square root: with `r` a multiple of `2^k` and `r^2 ≤ n < (r + 2^k)^2`,
the floor of the square root of `n`. -/
def isqrtAux (n : Nat) : Nat → Nat → Nat
  | 0, r => r
  | k + 1, r =>
    if (r + 2 ^ k) * (r + 2 ^ k) ≤ n then isqrtAux n k (r + 2 ^ k) else isqrtAux n k r

/-- `floor (sqrt n)`. -/
def isqrt (n : Nat) : Nat := isqrtAux n (log2 n / 2 + 1) 0

/-- The square root of `s * 2^(2*e)`, `s > 0`, rounded to binary64: the root is taken of
`s` scaled to about 130 bits, and a sticky bit records an inexact root, so that the
rounding sees on which side of every 53-bit boundary the true root lies. -/
def sqrtRound (s : Nat) (e : Int) : F64 :=
  let k : Int := 64 - (log2 s / 2 : Nat)
  let t := s * 4 ^ k.toNat / 4 ^ (-k).toNat
  let r := isqrt t
  let sticky : Nat := if r * r * 4 ^ (-k).toNat = s * 4 ^ k.toNat then 0 else 1
  roundDyadic ((2 * r + sticky : Nat) : Int) (e - k - 1)

/-- The function `hypot (x, y)` of `<math.h>`, taken as the correctly rounded square root
of `x*x + y*y` (no intermediate overflow or underflow; this is what glibc returns): an
infinite argument gives `+inf`, otherwise `NaN` propagates. -/
def hypot : F64 → F64 → F64
  | fin m1 e1, fin m2 e2 =>
    let a := m1.natAbs * 2 ^ (e1 - min e1 e2).toNat
    let b := m2.natAbs * 2 ^ (e2 - min e1 e2).toNat
    if a * a + b * b = 0 then fin 0 0 else sqrtRound (a * a + b * b) (min e1 e2)
  | pinf, _ => pinf
  | ninf, _ => pinf
  | _, pinf => pinf
  | _, ninf => pinf
  | nan, _ => nan
  | _, nan => nan

end F64

/-- C++ `struct Vector` over binary64. -/
structure Vector where
  dx : F64
  dy : F64
deriving DecidableEq

/-- C++ `struct Point` over binary64. -/
structure Point where
  x : F64
  y : F64
deriving DecidableEq

/-- C++ `struct Line` over binary64: `a*x + b*y = c`. -/
structure Line where
  a : F64
  b : F64
  c : F64
deriving DecidableEq

/-- C++ `struct Circle` over binary64. -/
structure Circle where
  c : Point
  r : F64
deriving DecidableEq

/-- `Vector::operator/ (const Scalar &s)`: `dx /= s; dy /= s`. -/
def Vector.div (v : Vector) (s : F64) : Vector := ⟨v.dx / s, v.dy / s⟩

/-- `Vector::len`: `hypot (dx, dy)`. -/
def Vector.len (v : Vector) : F64 := F64.hypot v.dx v.dy

/-- `Vector::normalized`: `d = len (); return d ? *this / d : *this`. -/
def Vector.normalized (v : Vector) : Vector :=
  let d := v.len
  if d.toBool then v.div d else v

/-- `Vector::perpendicular`: `Vector (-dy, dx)`. -/
def Vector.perpendicular (v : Vector) : Vector := ⟨-v.dy, v.dx⟩

/-- `Point::operator+ (const Vector &v)`: `x += v.dx; y += v.dy`. -/
def Point.add (p : Point) (v : Vector) : Point := ⟨p.x + v.dx, p.y + v.dy⟩

/-- `Point::operator- (const Point &p)`: `Vector (x - p.x, y - p.y)`. -/
def Point.sub (self p : Point) : Vector := ⟨self.x - p.x, self.y - p.y⟩

/-- `Point::operator+ (const Point &p)`, the mid-point: `*this + (p - *this) / 2`. -/
def Point.midpoint (self p : Point) : Point :=
  self.add ((p.sub self).div 2)

/-- `Point::operator- (const Line &l)`, the distance to a line:
`(l.a * x + l.b * y - l.c) / hypot (l.a, l.b)`. -/
def Point.distance (self : Point) (l : Line) : F64 :=
  (l.a * self.x + l.b * self.y - l.c) / F64.hypot l.a l.b

/-- `Point::operator| (const Point &p)`, the segment axis line. -/
def Point.axis (self p : Point) : Line :=
  let d := p.sub self
  ⟨d.dx * 2, d.dy * 2, (d.dx * p.x + d.dy * p.y) + (d.dx * self.x + d.dy * self.y)⟩

/-- `Line::Line (const Point &p0, const Point &p1)`:
`n = (p1 - p0).perpendicular (); a = n.dx; b = n.dy; c = n.dx * p0.x + n.dy * p0.y`. -/
def Line.ofPoints (p0 p1 : Point) : Line :=
  let n := (p1.sub p0).perpendicular
  ⟨n.dx, n.dy, n.dx * p0.x + n.dy * p0.y⟩

/-- `Line::normal`: `Vector (a, b)`. -/
def Line.normal (l : Line) : Vector := ⟨l.a, l.b⟩

/-- `Line::normalized`: `d = normal ().len (); return d ? Line (a / d, b / d, c / d) : *this`. -/
def Line.normalized (l : Line) : Line :=
  let d := l.normal.len
  if d.toBool then ⟨l.a / d, l.b / d, l.c / d⟩ else l

/-- The determinant `a * l.b - b * l.a` computed by `Line::operator+`. -/
def Line.det (self l : Line) : F64 := self.a * l.b - self.b * l.a

/-- `Line::operator+ (const Line &l)`, the line intersection. -/
def Line.intersect (self l : Line) : Point :=
  let det := self.a * l.b - self.b * l.a
  if !det.toBool then
    ⟨F64.INFINITY, F64.INFINITY⟩
  else
    ⟨(self.c * l.b - self.b * l.c) / det, (self.a * l.c - self.c * l.a) / det⟩

/-- `Circle::Circle (p0, p1, p2)`: `c ((p0|p1) + (p2|p1)), r ((c - p0).len ())`. -/
def Circle.ofPoints (p0 p1 p2 : Point) : Circle :=
  let c := (p0.axis p1).intersect (p2.axis p1)
  ⟨c, (c.sub p0).len⟩

end Binary64

/-! ## Computation rules for finite values -/

section Rules

variable {K : Type} [LinearOrderedField K]

open Double

@[simp] theorem Double.fin_add (x y : K) : (fin x + fin y : Double K) = fin (x + y) := rfl

@[simp] theorem Double.fin_sub (x y : K) : (fin x - fin y : Double K) = fin (x - y) := by
  show Double.add (fin x) (Double.neg (fin y)) = fin (x - y)
  simp [Double.add, Double.neg, sub_eq_add_neg]

@[simp] theorem Double.fin_mul (x y : K) : (fin x * fin y : Double K) = fin (x * y) := rfl

@[simp] theorem Double.neg_fin (x : K) : (-(fin x) : Double K) = fin (-x) := rfl

theorem Double.fin_div (x y : K) (hy : y ≠ 0) : (fin x / fin y : Double K) = fin (x / y) := by
  show Double.div (fin x) (fin y) = fin (x / y)
  simp [Double.div, hy]

end Rules

@[simp] theorem Double.ofNat_eq {K : Type} (n : Nat) [OfNat K n] :
    (OfNat.ofNat n : Double K) = Double.fin (OfNat.ofNat n) := rfl

/-! ## Line intersection -/

section LineIntersection

variable {K : Type} [LinearOrderedField K]

theorem Line.intersect_fin (a1 b1 c1 a2 b2 c2 : K) (h : a1 * b2 - b1 * a2 ≠ 0) :
    (Line.fin a1 b1 c1).intersect (Line.fin a2 b2 c2)
      = Point.fin ((c1 * b2 - b1 * c2) / (a1 * b2 - b1 * a2))
          ((a1 * c2 - c1 * a2) / (a1 * b2 - b1 * a2)) := by
  simp [Line.intersect, Line.fin, Point.fin, Double.toBool, h, Double.fin_div]

theorem Line.intersect_of_det_zero (l1 l2 : Line K) (h : l1.det l2 = Double.fin 0) :
    l1.intersect l2 = ⟨Double.pinf, Double.pinf⟩ := by
  unfold Line.det at h
  simp [Line.intersect, h, Double.toBool, Double.INFINITY]

end LineIntersection

/-! ## Claims on line intersection -/

/-- C1. Line intersection is correct: for finite lines `a1*x + b1*y = c1` and
`a2*x + b2*y = c2` with `a1*b2 - b1*a2 ≠ 0`, the point `l1 + l2` is finite and satisfies
both line equations; and `Line(1,0,0) + Line(0,1,0)` is `Point(0,0)`. -/
theorem line_intersection_correct (K : Type) [LinearOrderedField K] :
    (∀ a1 b1 c1 a2 b2 c2 : K, a1 * b2 - b1 * a2 ≠ 0 →
      ∃ x y : K, (Line.fin a1 b1 c1).intersect (Line.fin a2 b2 c2) = Point.fin x y
        ∧ a1 * x + b1 * y = c1 ∧ a2 * x + b2 * y = c2)
    ∧ (Line.fin (1 : K) 0 0).intersect (Line.fin 0 1 0) = Point.fin 0 0 := by
  refine ⟨?_, ?_⟩
  · intro a1 b1 c1 a2 b2 c2 h
    refine ⟨_, _, Line.intersect_fin a1 b1 c1 a2 b2 c2 h, ?_, ?_⟩
    · field_simp
      ring
    · field_simp
      ring
  · rw [Line.intersect_fin (1 : K) 0 0 0 1 0 (by norm_num)]
    norm_num

/-- C1 at the lines `x + 2y = 3` and `4x + 5y = 6` over the rationals. -/
theorem line_intersection_correct_witness :
    ∃ x y : ℚ, (Line.fin (1 : ℚ) 2 3).intersect (Line.fin 4 5 6) = Point.fin x y
      ∧ 1 * x + 2 * y = 3 ∧ 4 * x + 5 * y = 6 :=
  (line_intersection_correct ℚ).1 1 2 3 4 5 6 (by norm_num)

/-- C2, amended. Parallel-line sentinel: whenever the determinant `a * l.b - b * l.a`
that `operator+` computes is zero, the result is `Point(INFINITY, INFINITY)`, in exact
arithmetic and on doubles alike, and so is `Line(1,0,0) + Line(1,0,1)`. In exact
arithmetic every pair of finite lines with `a1*b2 - b1*a2 = 0` has that result, and for
finite coefficients with non-zero determinant both coordinates of the result are
finite. -/
theorem line_intersection_sentinel (K : Type) [LinearOrderedField K] :
    (∀ l1 l2 : Line K, l1.det l2 = Double.fin 0 →
      l1.intersect l2 = ⟨Double.INFINITY, Double.INFINITY⟩)
    ∧ (∀ a1 b1 c1 a2 b2 c2 : K, a1 * b2 - b1 * a2 = 0 →
      (Line.fin a1 b1 c1).intersect (Line.fin a2 b2 c2)
        = ⟨Double.INFINITY, Double.INFINITY⟩)
    ∧ (Line.fin (1 : K) 0 0).intersect (Line.fin 1 0 1) = ⟨Double.INFINITY, Double.INFINITY⟩
    ∧ (∀ a1 b1 c1 a2 b2 c2 : K, a1 * b2 - b1 * a2 ≠ 0 →
      ((Line.fin a1 b1 c1).intersect (Line.fin a2 b2 c2)).x.isFinite = true
        ∧ ((Line.fin a1 b1 c1).intersect (Line.fin a2 b2 c2)).y.isFinite = true)
    ∧ (∀ l1 l2 : Binary64.Line, (l1.det l2).toBool = false →
      l1.intersect l2 = ⟨Binary64.F64.INFINITY, Binary64.F64.INFINITY⟩)
    ∧ (Binary64.Line.mk 1 0 0).intersect (Binary64.Line.mk 1 0 1)
        = ⟨Binary64.F64.INFINITY, Binary64.F64.INFINITY⟩ := by
  refine ⟨fun l1 l2 h => Line.intersect_of_det_zero l1 l2 h, ?_, ?_, ?_, ?_, ?_⟩
  · intro a1 b1 c1 a2 b2 c2 h
    apply Line.intersect_of_det_zero
    simp [Line.det, Line.fin, h]
  · apply Line.intersect_of_det_zero
    simp [Line.det, Line.fin]
  · intro a1 b1 c1 a2 b2 c2 h
    rw [Line.intersect_fin a1 b1 c1 a2 b2 c2 h]
    simp [Point.fin, Double.isFinite]
  · intro l1 l2 h
    unfold Binary64.Line.det at h
    simp [Binary64.Line.intersect, h]
  · decide!

/-- C2 at the coincident lines `2x + 4y = 1` and `x + 2y = 7` (determinant zero) and at
the crossing lines `x + 2y = 3`, `4x + 5y = 6` over the rationals. -/
theorem line_intersection_sentinel_witness :
    (Line.fin (2 : ℚ) 4 1).intersect (Line.fin 1 2 7) = ⟨Double.INFINITY, Double.INFINITY⟩
    ∧ ((Line.fin (1 : ℚ) 2 3).intersect (Line.fin 4 5 6)).x.isFinite = true :=
  ⟨(line_intersection_sentinel ℚ).2.1 2 4 1 1 2 7 (by norm_num),
   ((line_intersection_sentinel ℚ).2.2.2.1 1 2 3 4 5 6 (by norm_num)).1⟩

/-! ## Circumcircle -/

section Circumcircle

variable {K : Type} [LinearOrderedField K]

theorem Point.axis_fin (x0 y0 x1 y1 : K) :
    (Point.fin x0 y0).axis (Point.fin x1 y1)
      = Line.fin ((x1 - x0) * 2) ((y1 - y0) * 2)
          (((x1 - x0) * x1 + (y1 - y0) * y1) + ((x1 - x0) * x0 + (y1 - y0) * y0)) := by
  simp [Point.axis, Point.sub, Point.fin, Line.fin]

theorem Point.sub_fin (x0 y0 x1 y1 : K) :
    (Point.fin x0 y0).sub (Point.fin x1 y1) = Vector.fin (x0 - x1) (y0 - y1) := by
  simp [Point.sub, Point.fin, Vector.fin]

theorem Vector.len_fin (hypot : K → K → K) (dx dy : K) :
    (Vector.fin dx dy).len hypot = Double.fin (hypot dx dy) := rfl

theorem IsHypot.eq_of_sq_eq {hypot : K → K → K} (hh : IsHypot hypot) {a b c d : K}
    (h : a * a + b * b = c * c + d * d) : hypot a b = hypot c d := by
  have h1 : hypot a b * hypot a b = hypot c d * hypot c d := by
    rw [hh.sq, hh.sq, h]
  exact (mul_self_inj (hh.nonneg a b) (hh.nonneg c d)).1 h1

theorem IsHypot.eq_zero_iff {hypot : K → K → K} (hh : IsHypot hypot) (a b : K) :
    hypot a b = 0 ↔ a = 0 ∧ b = 0 := by
  constructor
  · intro h
    have h1 : a * a + b * b = 0 := by rw [← hh.sq, h, mul_zero]
    constructor <;> nlinarith [mul_self_nonneg a, mul_self_nonneg b]
  · rintro ⟨rfl, rfl⟩
    have h1 : hypot 0 0 * hypot 0 0 = 0 := by rw [hh.sq]; ring
    exact mul_self_eq_zero.1 h1

/-- The determinant of the two bisectors is minus four times the cross product of
`p1 - p0` and `p2 - p0`. -/
theorem axis_det (x0 y0 x1 y1 x2 y2 : K) :
    (x1 - x0) * 2 * ((y1 - y2) * 2) - (y1 - y0) * 2 * ((x1 - x2) * 2)
      = -4 * ((x1 - x0) * (y2 - y0) - (y1 - y0) * (x2 - x0)) := by
  ring

end Circumcircle

/-- The real `hypot`, `sqrt (a*a + b*b)`, meets `IsHypot`. -/
theorem isHypot_sqrt : IsHypot (fun a b : ℝ => Real.sqrt (a * a + b * b)) where
  nonneg := fun _ _ => Real.sqrt_nonneg _
  sq := fun a b => Real.mul_self_sqrt (add_nonneg (mul_self_nonneg a) (mul_self_nonneg b))

/-- The circumcircle of three finite, non-collinear points: its finite centre and
radius. -/
theorem Circle.ofPoints_fin {K : Type} [LinearOrderedField K] (hypot : K → K → K)
    (x0 y0 x1 y1 x2 y2 : K)
    (h : (x1 - x0) * (y2 - y0) - (y1 - y0) * (x2 - x0) ≠ 0) :
    ∃ cx cy : K,
      Circle.ofPoints hypot (Point.fin x0 y0) (Point.fin x1 y1) (Point.fin x2 y2)
        = ⟨Point.fin cx cy, Double.fin (hypot (cx - x0) (cy - y0))⟩
      ∧ (cx - x1) * (cx - x1) + (cy - y1) * (cy - y1)
          = (cx - x0) * (cx - x0) + (cy - y0) * (cy - y0)
      ∧ (cx - x2) * (cx - x2) + (cy - y2) * (cy - y2)
          = (cx - x0) * (cx - x0) + (cy - y0) * (cy - y0) := by
  have hdet : (x1 - x0) * 2 * ((y1 - y2) * 2) - (y1 - y0) * 2 * ((x1 - x2) * 2) ≠ 0 := by
    rw [axis_det]
    exact mul_ne_zero (by norm_num) h
  simp only [Circle.ofPoints, Point.axis_fin, Line.intersect_fin _ _ _ _ _ _ hdet,
    Point.sub_fin, Vector.len_fin]
  refine ⟨_, _, rfl, ?_, ?_⟩
  · field_simp
    ring
  · field_simp
    ring

/-- C3. Circumcircle: for three finite non-collinear points the circle
`Circle(p0, p1, p2)` has a finite radius `r` and its centre is at distance `r` from each
of `p0`, `p1`, `p2`; and `Circle((0,0),(2,0),(0,2))` has centre `(1,1)` and radius the
non-negative square root of `2`. -/
theorem circumcircle_correct (K : Type) [LinearOrderedField K] (hypot : K → K → K)
    (hh : IsHypot hypot) :
    (∀ x0 y0 x1 y1 x2 y2 : K, (x1 - x0) * (y2 - y0) - (y1 - y0) * (x2 - x0) ≠ 0 →
      ∀ C : Circle K,
        C = Circle.ofPoints hypot (Point.fin x0 y0) (Point.fin x1 y1) (Point.fin x2 y2) →
        C.r.isFinite = true
        ∧ (C.c.sub (Point.fin x0 y0)).len hypot = C.r
        ∧ (C.c.sub (Point.fin x1 y1)).len hypot = C.r
        ∧ (C.c.sub (Point.fin x2 y2)).len hypot = C.r)
    ∧ (Circle.ofPoints hypot (Point.fin 0 0) (Point.fin 2 0) (Point.fin 0 2)).c
        = Point.fin 1 1
    ∧ ∃ r : K, (Circle.ofPoints hypot (Point.fin 0 0) (Point.fin 2 0) (Point.fin 0 2)).r
        = Double.fin r ∧ 0 ≤ r ∧ r * r = 2 := by
  refine ⟨?_, ?_, ?_⟩
  · intro x0 y0 x1 y1 x2 y2 h C hC
    obtain ⟨cx, cy, hc, h1, h2⟩ := Circle.ofPoints_fin hypot x0 y0 x1 y1 x2 y2 h
    rw [hc] at hC
    subst hC
    refine ⟨rfl, ?_, ?_, ?_⟩
    · simp only [Point.sub_fin, Vector.len_fin]
    · simp only [Point.sub_fin, Vector.len_fin]
      exact congrArg Double.fin (hh.eq_of_sq_eq h1)
    · simp only [Point.sub_fin, Vector.len_fin]
      exact congrArg Double.fin (hh.eq_of_sq_eq h2)
  · have hdet : ((2 : K) - 0) * 2 * ((0 - 2) * 2) - (0 - 0) * 2 * ((2 - 0) * 2) ≠ 0 := by
      norm_num
    simp only [Circle.ofPoints, Point.axis_fin, Line.intersect_fin _ _ _ _ _ _ hdet]
    norm_num [Point.fin]
  · have hdet : ((2 : K) - 0) * 2 * ((0 - 2) * 2) - (0 - 0) * 2 * ((2 - 0) * 2) ≠ 0 := by
      norm_num
    refine ⟨hypot 1 1, ?_, hh.nonneg 1 1, ?_⟩
    · simp only [Circle.ofPoints, Point.axis_fin, Line.intersect_fin _ _ _ _ _ _ hdet,
        Point.sub_fin, Vector.len_fin]
      norm_num
    · rw [hh.sq]
      norm_num

/-- C3 over the reals with `hypot a b = sqrt (a*a + b*b)`: the circle through `(0,0)`,
`(2,0)`, `(0,2)` has radius `sqrt 2`. -/
theorem circumcircle_correct_witness :
    (Circle.ofPoints (fun a b : ℝ => Real.sqrt (a * a + b * b))
      (Point.fin 0 0) (Point.fin 2 0) (Point.fin 0 2)).r = Double.fin (Real.sqrt 2) := by
  obtain ⟨r, hr, h0, h2⟩ := (circumcircle_correct ℝ _ isHypot_sqrt).2.2
  rw [hr]
  congr 1
  rw [← h2, Real.sqrt_mul_self h0]

/-- C4, amended. Collinear circumcircle sentinel, in exact arithmetic: for three finite
collinear points (coincident ones included) the bisectors `p0|p1` and `p2|p1` have
determinant zero and `Circle(p0, p1, p2)` has centre `Point(INFINITY, INFINITY)`. -/
theorem circumcircle_collinear_sentinel (K : Type) [LinearOrderedField K]
    (hypot : K → K → K) (x0 y0 x1 y1 x2 y2 : K)
    (h : (x1 - x0) * (y2 - y0) - (y1 - y0) * (x2 - x0) = 0) :
    ((Point.fin x0 y0).axis (Point.fin x1 y1)).det ((Point.fin x2 y2).axis (Point.fin x1 y1))
        = Double.fin 0
    ∧ (Circle.ofPoints hypot (Point.fin x0 y0) (Point.fin x1 y1) (Point.fin x2 y2)).c
        = ⟨Double.INFINITY, Double.INFINITY⟩ := by
  have hdet : ((Point.fin x0 y0).axis (Point.fin x1 y1)).det
      ((Point.fin x2 y2).axis (Point.fin x1 y1)) = Double.fin 0 := by
    simp only [Point.axis_fin, Line.det, Line.fin, Double.fin_mul, Double.fin_sub, axis_det, h]
    norm_num
  exact ⟨hdet, Line.intersect_of_det_zero _ _ hdet⟩

/-- C4 at the collinear points `(0,0)`, `(1,1)`, `(2,2)` and at the coincident triple
`(3,4)`, `(3,4)`, `(3,4)`, over the rationals (the centre does not depend on `hypot`). -/
theorem circumcircle_collinear_sentinel_witness :
    (Circle.ofPoints (fun a b : ℚ => |a| + |b|)
        (Point.fin 0 0) (Point.fin 1 1) (Point.fin 2 2)).c
      = ⟨Double.INFINITY, Double.INFINITY⟩
    ∧ (Circle.ofPoints (fun a b : ℚ => |a| + |b|)
        (Point.fin 3 4) (Point.fin 3 4) (Point.fin 3 4)).c
      = ⟨Double.INFINITY, Double.INFINITY⟩ :=
  ⟨(circumcircle_collinear_sentinel ℚ _ 0 0 1 1 2 2 (by norm_num)).2,
   (circumcircle_collinear_sentinel ℚ _ 3 4 3 4 3 4 (by norm_num)).2⟩

/-! ## Bezier evaluation and subdivision -/

section BezierAlgebra

variable {K : Type} [LinearOrderedField K]

/-- De Casteljau evaluation at finite control points `(x0,y0)`, ..., `(x3,y3)` in
Bernstein form. -/
theorem Bezier.point_fin (x0 y0 x1 y1 x2 y2 x3 y3 t : K) :
    (Bezier.mk (Point.fin x0 y0) (Point.fin x1 y1) (Point.fin x2 y2)
        (Point.fin x3 y3)).point (Double.fin t)
      = Point.fin
          ((1 - t) ^ 3 * x0 + 3 * (1 - t) ^ 2 * t * x1 + 3 * (1 - t) * t ^ 2 * x2 + t ^ 3 * x3)
          ((1 - t) ^ 3 * y0 + 3 * (1 - t) ^ 2 * t * y1 + 3 * (1 - t) * t ^ 2 * y2 + t ^ 3 * y3) := by
  simp only [Bezier.point, Point.lerp, Point.fin, Double.ofNat_eq, Double.fin_sub,
    Double.fin_mul, Double.fin_add]
  congr 2 <;> ring

end BezierAlgebra

/-- C5. `Bezier::point` evaluates the cubic Bernstein form: for finite control points
and every finite `t`, `point(t)` is
`(1-t)^3*p0 + 3*(1-t)^2*t*p1 + 3*(1-t)*t^2*p2 + t^3*p3` in each coordinate; and
`Bezier((0,0),(0,1),(1,1),(1,0)).point(0.5)` is `(0.5, 0.75)`. -/
theorem bezier_point_bernstein (K : Type) [LinearOrderedField K] :
    (∀ x0 y0 x1 y1 x2 y2 x3 y3 t : K,
      (Bezier.mk (Point.fin x0 y0) (Point.fin x1 y1) (Point.fin x2 y2)
          (Point.fin x3 y3)).point (Double.fin t)
        = Point.fin
            ((1 - t) ^ 3 * x0 + 3 * (1 - t) ^ 2 * t * x1 + 3 * (1 - t) * t ^ 2 * x2
              + t ^ 3 * x3)
            ((1 - t) ^ 3 * y0 + 3 * (1 - t) ^ 2 * t * y1 + 3 * (1 - t) * t ^ 2 * y2
              + t ^ 3 * y3))
    ∧ (Bezier.mk (Point.fin (0 : K) 0) (Point.fin 0 1) (Point.fin 1 1)
          (Point.fin 1 0)).point (Double.fin (1 / 2))
        = Point.fin (1 / 2) (3 / 4) := by
  refine ⟨fun x0 y0 x1 y1 x2 y2 x3 y3 t => Bezier.point_fin x0 y0 x1 y1 x2 y2 x3 y3 t, ?_⟩
  rw [Bezier.point_fin]
  norm_num [Point.fin]

/-- C6. Split round trip: for finite control points and all finite `t`, `s`, with
`(L, R) = b.split(t)`: `L.point(s) = b.point(t*s)` and
`R.point(s) = b.point(t + (1-t)*s)`; and `L.p0 = b.p0`, `L.p3 = R.p0 = b.point(t)`,
`R.p3 = b.p3`. There is no restriction on `t`. -/
theorem bezier_split_round_trip (K : Type) [LinearOrderedField K]
    (x0 y0 x1 y1 x2 y2 x3 y3 t s : K) (b : Bezier K)
    (hb : b = Bezier.mk (Point.fin x0 y0) (Point.fin x1 y1) (Point.fin x2 y2)
      (Point.fin x3 y3)) :
    (b.split (Double.fin t)).first.point (Double.fin s) = b.point (Double.fin (t * s))
    ∧ (b.split (Double.fin t)).second.point (Double.fin s)
        = b.point (Double.fin (t + (1 - t) * s))
    ∧ (b.split (Double.fin t)).first.p0 = b.p0
    ∧ (b.split (Double.fin t)).first.p3 = b.point (Double.fin t)
    ∧ (b.split (Double.fin t)).second.p0 = b.point (Double.fin t)
    ∧ (b.split (Double.fin t)).second.p3 = b.p3 := by
  subst hb
  refine ⟨?_, ?_, rfl, rfl, rfl, rfl⟩
  · simp only [Bezier.split, Bezier.point, Point.lerp, Point.fin, Double.ofNat_eq,
      Double.fin_sub, Double.fin_mul, Double.fin_add]
    congr 2 <;> ring
  · simp only [Bezier.split, Bezier.point, Point.lerp, Point.fin, Double.ofNat_eq,
      Double.fin_sub, Double.fin_mul, Double.fin_add]
    congr 2 <;> ring

/-- C6 at the curve `(0,0),(0,1),(1,1),(1,0)` split at `t = 1/4` (and at `t = 2`, outside
`[0,1]`), each half evaluated at `s = 1/2`, over the rationals. -/
theorem bezier_split_round_trip_witness :
    ((Bezier.mk (Point.fin (0 : ℚ) 0) (Point.fin 0 1) (Point.fin 1 1)
        (Point.fin 1 0)).split (Double.fin (1 / 4))).first.point (Double.fin (1 / 2))
      = (Bezier.mk (Point.fin (0 : ℚ) 0) (Point.fin 0 1) (Point.fin 1 1)
          (Point.fin 1 0)).point (Double.fin (1 / 4 * (1 / 2)))
    ∧ ((Bezier.mk (Point.fin (0 : ℚ) 0) (Point.fin 0 1) (Point.fin 1 1)
        (Point.fin 1 0)).split (Double.fin 2)).second.point (Double.fin (1 / 2))
      = (Bezier.mk (Point.fin (0 : ℚ) 0) (Point.fin 0 1) (Point.fin 1 1)
          (Point.fin 1 0)).point (Double.fin (2 + (1 - 2) * (1 / 2))) :=
  ⟨(bezier_split_round_trip ℚ 0 0 0 1 1 1 1 0 (1 / 4) (1 / 2) _ rfl).1,
   (bezier_split_round_trip ℚ 0 0 0 1 1 1 1 0 2 (1 / 2) _ rfl).2.1⟩

/-- C7. `halve` agrees with `split(0.5)`: for finite control points `b.halve ()` and
`b.split (0.5)` are the same pair of curves (all eight control points are equal). -/
theorem bezier_halve_eq_split_half (K : Type) [LinearOrderedField K]
    (x0 y0 x1 y1 x2 y2 x3 y3 : K) :
    (Bezier.mk (Point.fin x0 y0) (Point.fin x1 y1) (Point.fin x2 y2)
        (Point.fin x3 y3)).halve
      = (Bezier.mk (Point.fin x0 y0) (Point.fin x1 y1) (Point.fin x2 y2)
          (Point.fin x3 y3)).split (Double.fin (1 / 2)) := by
  have h2 : (2 : K) ≠ 0 := two_ne_zero
  simp only [Bezier.halve, Bezier.split, Point.midpoint, Point.add, Point.sub, Vector.div,
    Point.lerp, Point.fin, Double.ofNat_eq, Double.fin_sub, Double.fin_mul, Double.fin_add,
    Double.fin_div _ _ h2]
  congr 4 <;> ring

/-! ## Bezier derivatives -/

/-- The derivative of a real cubic in monomial form. -/
theorem hasDerivAt_cubic (a0 a1 a2 a3 t : ℝ) :
    HasDerivAt (fun s : ℝ => a0 + a1 * s + a2 * s ^ 2 + a3 * s ^ 3)
      (a1 + 2 * a2 * t + 3 * a3 * t ^ 2) t := by
  have h1 : HasDerivAt (fun s : ℝ => s) 1 t := hasDerivAt_id t
  have h2 : HasDerivAt (fun s : ℝ => s ^ 2) (2 * t) t := by
    simpa using h1.pow 2
  have h3 : HasDerivAt (fun s : ℝ => s ^ 3) (3 * t ^ 2) t := by
    simpa using h1.pow 3
  have h := (((h1.const_mul a1).const_add a0).add (h2.const_mul a2)).add (h3.const_mul a3)
  convert h using 1
  ring

/-- A real function that is pointwise a cubic has the cubic's derivative. -/
theorem hasDerivAt_of_eq_cubic (f : ℝ → ℝ) (a0 a1 a2 a3 t d : ℝ)
    (hf : ∀ s, f s = a0 + a1 * s + a2 * s ^ 2 + a3 * s ^ 3)
    (hd : d = a1 + 2 * a2 * t + 3 * a3 * t ^ 2) : HasDerivAt f d t := by
  have hfun : f = fun s : ℝ => a0 + a1 * s + a2 * s ^ 2 + a3 * s ^ 3 := funext hf
  rw [hfun, hd]
  exact hasDerivAt_cubic a0 a1 a2 a3 t

section BezierDerivatives

variable {K : Type} [LinearOrderedField K]

theorem Bezier.tangent_fin (x0 y0 x1 y1 x2 y2 x3 y3 t : K) :
    (Bezier.mk (Point.fin x0 y0) (Point.fin x1 y1) (Point.fin x2 y2)
        (Point.fin x3 y3)).tangent (Double.fin t)
      = Vector.fin
          (3 * (1 - t) ^ 2 * (x1 - x0) + 6 * (1 - t) * t * (x2 - x1) + 3 * t ^ 2 * (x3 - x2))
          (3 * (1 - t) ^ 2 * (y1 - y0) + 6 * (1 - t) * t * (y2 - y1) + 3 * t ^ 2 * (y3 - y2)) := by
  simp only [Bezier.tangent, Point.fin, Vector.fin, Double.ofNat_eq, Double.fin_sub,
    Double.fin_mul, Double.fin_add, Double.neg_fin]
  congr 2 <;> ring

theorem Bezier.normal_fin (x0 y0 x1 y1 x2 y2 x3 y3 t : K) :
    (Bezier.mk (Point.fin x0 y0) (Point.fin x1 y1) (Point.fin x2 y2)
        (Point.fin x3 y3)).normal (Double.fin t)
      = Vector.fin
          (6 * ((1 - t) * (x0 - 2 * x1 + x2) + t * (x1 - 2 * x2 + x3)))
          (6 * ((1 - t) * (y0 - 2 * y1 + y2) + t * (y1 - 2 * y2 + y3))) := by
  simp only [Bezier.normal, Point.fin, Vector.fin, Double.ofNat_eq, Double.fin_sub,
    Double.fin_mul, Double.fin_add, Double.neg_fin]
  congr 2 <;> ring

end BezierDerivatives

/-- C8. `Bezier::tangent` is the derivative of `Bezier::point`: for finite control points
`tangent(t)` is `3*(1-t)^2*(p1-p0) + 6*(1-t)*t*(p2-p1) + 3*t^2*(p3-p2)` in each
coordinate, and over the reals each coordinate of `point` has at `t` the derivative given
by the matching coordinate of `tangent(t)`. The vector is not normalized:
`Bezier((0,0),(0,1),(1,1),(1,0)).tangent(0)` is `(0,3)`. -/
theorem bezier_tangent_is_derivative (K : Type) [LinearOrderedField K] :
    (∀ x0 y0 x1 y1 x2 y2 x3 y3 t : K,
      (Bezier.mk (Point.fin x0 y0) (Point.fin x1 y1) (Point.fin x2 y2)
          (Point.fin x3 y3)).tangent (Double.fin t)
        = Vector.fin
            (3 * (1 - t) ^ 2 * (x1 - x0) + 6 * (1 - t) * t * (x2 - x1)
              + 3 * t ^ 2 * (x3 - x2))
            (3 * (1 - t) ^ 2 * (y1 - y0) + 6 * (1 - t) * t * (y2 - y1)
              + 3 * t ^ 2 * (y3 - y2)))
    ∧ (∀ x0 y0 x1 y1 x2 y2 x3 y3 t : ℝ,
      HasDerivAt
          (fun s : ℝ => ((Bezier.mk (Point.fin x0 y0) (Point.fin x1 y1) (Point.fin x2 y2)
            (Point.fin x3 y3)).point (Double.fin s)).x.value)
          ((Bezier.mk (Point.fin x0 y0) (Point.fin x1 y1) (Point.fin x2 y2)
            (Point.fin x3 y3)).tangent (Double.fin t)).dx.value t
        ∧ HasDerivAt
          (fun s : ℝ => ((Bezier.mk (Point.fin x0 y0) (Point.fin x1 y1) (Point.fin x2 y2)
            (Point.fin x3 y3)).point (Double.fin s)).y.value)
          ((Bezier.mk (Point.fin x0 y0) (Point.fin x1 y1) (Point.fin x2 y2)
            (Point.fin x3 y3)).tangent (Double.fin t)).dy.value t)
    ∧ (Bezier.mk (Point.fin (0 : K) 0) (Point.fin 0 1) (Point.fin 1 1)
          (Point.fin 1 0)).tangent (Double.fin 0) = Vector.fin 0 3 := by
  refine ⟨fun x0 y0 x1 y1 x2 y2 x3 y3 t => Bezier.tangent_fin x0 y0 x1 y1 x2 y2 x3 y3 t,
    ?_, ?_⟩
  · intro x0 y0 x1 y1 x2 y2 x3 y3 t
    constructor
    · apply hasDerivAt_of_eq_cubic _ x0 (3 * (x1 - x0)) (3 * (x0 - 2 * x1 + x2))
        (-x0 + 3 * x1 - 3 * x2 + x3) t
      · intro s
        rw [Bezier.point_fin]
        simp only [Point.fin, Double.value]
        ring
      · rw [Bezier.tangent_fin]
        simp only [Vector.fin, Double.value]
        ring
    · apply hasDerivAt_of_eq_cubic _ y0 (3 * (y1 - y0)) (3 * (y0 - 2 * y1 + y2))
        (-y0 + 3 * y1 - 3 * y2 + y3) t
      · intro s
        rw [Bezier.point_fin]
        simp only [Point.fin, Double.value]
        ring
      · rw [Bezier.tangent_fin]
        simp only [Vector.fin, Double.value]
        ring
  · rw [Bezier.tangent_fin]
    norm_num [Vector.fin]

/-- C9. `Bezier::normal` is the second derivative of the curve: for finite control points
`normal(t)` is `6*((1-t)*(p0 - 2*p1 + p2) + t*(p1 - 2*p2 + p3))` in each coordinate, and
over the reals each coordinate of `tangent` has at `t` the derivative given by the
matching coordinate of `normal(t)`. -/
theorem bezier_normal_is_second_derivative (K : Type) [LinearOrderedField K] :
    (∀ x0 y0 x1 y1 x2 y2 x3 y3 t : K,
      (Bezier.mk (Point.fin x0 y0) (Point.fin x1 y1) (Point.fin x2 y2)
          (Point.fin x3 y3)).normal (Double.fin t)
        = Vector.fin
            (6 * ((1 - t) * (x0 - 2 * x1 + x2) + t * (x1 - 2 * x2 + x3)))
            (6 * ((1 - t) * (y0 - 2 * y1 + y2) + t * (y1 - 2 * y2 + y3))))
    ∧ (∀ x0 y0 x1 y1 x2 y2 x3 y3 t : ℝ,
      HasDerivAt
          (fun s : ℝ => ((Bezier.mk (Point.fin x0 y0) (Point.fin x1 y1) (Point.fin x2 y2)
            (Point.fin x3 y3)).tangent (Double.fin s)).dx.value)
          ((Bezier.mk (Point.fin x0 y0) (Point.fin x1 y1) (Point.fin x2 y2)
            (Point.fin x3 y3)).normal (Double.fin t)).dx.value t
        ∧ HasDerivAt
          (fun s : ℝ => ((Bezier.mk (Point.fin x0 y0) (Point.fin x1 y1) (Point.fin x2 y2)
            (Point.fin x3 y3)).tangent (Double.fin s)).dy.value)
          ((Bezier.mk (Point.fin x0 y0) (Point.fin x1 y1) (Point.fin x2 y2)
            (Point.fin x3 y3)).normal (Double.fin t)).dy.value t) := by
  refine ⟨fun x0 y0 x1 y1 x2 y2 x3 y3 t => Bezier.normal_fin x0 y0 x1 y1 x2 y2 x3 y3 t, ?_⟩
  intro x0 y0 x1 y1 x2 y2 x3 y3 t
  constructor
  · apply hasDerivAt_of_eq_cubic _ (3 * (x1 - x0)) (6 * (x0 - 2 * x1 + x2))
      (3 * (-x0 + 3 * x1 - 3 * x2 + x3)) 0 t
    · intro s
      rw [Bezier.tangent_fin]
      simp only [Vector.fin, Double.value]
      ring
    · rw [Bezier.normal_fin]
      simp only [Vector.fin, Double.value]
      ring
  · apply hasDerivAt_of_eq_cubic _ (3 * (y1 - y0)) (6 * (y0 - 2 * y1 + y2))
      (3 * (-y0 + 3 * y1 - 3 * y2 + y3)) 0 t
    · intro s
      rw [Bezier.tangent_fin]
      simp only [Vector.fin, Double.value]
      ring
    · rw [Bezier.normal_fin]
      simp only [Vector.fin, Double.value]
      ring

/-! ## Perpendicular bisector -/

/-- C10. The perpendicular bisector is the equidistance locus: for finite points `p ≠ q`
and every finite point `z`, the signed distance `z - (p | q)` is `0` exactly when
`|z - p| = |z - q|`; and for `Point(0,0) | Point(2,0)` both `Point(1,0)` and `Point(1,5)`
have signed distance `0`. -/
theorem bisector_equidistance_locus (K : Type) [LinearOrderedField K] (hypot : K → K → K)
    (hh : IsHypot hypot) :
    (∀ px py qx qy zx zy : K, Point.fin px py ≠ Point.fin qx qy →
      ((Point.fin zx zy).distance hypot ((Point.fin px py).axis (Point.fin qx qy))
          = Double.fin 0
        ↔ ((Point.fin zx zy).sub (Point.fin px py)).len hypot
            = ((Point.fin zx zy).sub (Point.fin qx qy)).len hypot))
    ∧ (Point.fin 1 0).distance hypot ((Point.fin 0 0).axis (Point.fin 2 0)) = Double.fin 0
    ∧ (Point.fin 1 5).distance hypot ((Point.fin 0 0).axis (Point.fin 2 0)) = Double.fin 0 := by
  have key : ∀ px py qx qy zx zy : K, Point.fin px py ≠ Point.fin qx qy →
      ((Point.fin zx zy).distance hypot ((Point.fin px py).axis (Point.fin qx qy))
          = Double.fin 0
        ↔ ((Point.fin zx zy).sub (Point.fin px py)).len hypot
            = ((Point.fin zx zy).sub (Point.fin qx qy)).len hypot) := by
    intro px py qx qy zx zy hne
    have hab : ¬ ((qx - px) * 2 = 0 ∧ (qy - py) * 2 = 0) := by
      rintro ⟨h1, h2⟩
      apply hne
      have e1 : px = qx := by linarith
      have e2 : py = qy := by linarith
      rw [e1, e2]
    have hh0 : hypot ((qx - px) * 2) ((qy - py) * 2) ≠ 0 :=
      fun h => hab ((hh.eq_zero_iff _ _).1 h)
    simp only [Point.axis_fin, Point.sub_fin, Vector.len_fin]
    simp only [Point.distance, Line.fin, Point.fin, Double.hypot, Double.fin_mul,
      Double.fin_add, Double.fin_sub, Double.fin_div _ _ hh0, Double.fin.injEq,
      div_eq_zero_iff, hh0, or_false]
    constructor
    · intro h
      apply hh.eq_of_sq_eq
      linear_combination h
    · intro h
      have h2 := congrArg (fun r => r * r) h
      simp only [hh.sq] at h2
      linear_combination h2
  refine ⟨key, ?_, ?_⟩
  · refine (key 0 0 2 0 1 0 ?_).2 ?_
    · simp [Point.fin]
    · simp only [Point.sub_fin, Vector.len_fin]
      exact congrArg Double.fin (hh.eq_of_sq_eq (by norm_num))
  · refine (key 0 0 2 0 1 5 ?_).2 ?_
    · simp [Point.fin]
    · simp only [Point.sub_fin, Vector.len_fin]
      exact congrArg Double.fin (hh.eq_of_sq_eq (by norm_num))

/-- C10 over the reals with `hypot a b = sqrt (a*a + b*b)`: the point `(3, 7)` is on the
bisector of `(1,1)` and `(5,1)`. -/
theorem bisector_equidistance_locus_witness :
    (Point.fin (3 : ℝ) 7).distance (fun a b : ℝ => Real.sqrt (a * a + b * b))
        ((Point.fin 1 1).axis (Point.fin 5 1)) = Double.fin 0 := by
  refine ((bisector_equidistance_locus ℝ _ isHypot_sqrt).1 1 1 5 1 3 7 ?_).2 ?_
  · simp [Point.fin]
  · simp only [Point.sub_fin, Vector.len_fin]
    norm_num

/-! ## Signed distance, mid-point, normalization -/

section Distances

variable {K : Type} [LinearOrderedField K]

theorem IsHypot.eq_of_sq {hypot : K → K → K} (hh : IsHypot hypot) {a b r : K}
    (hr : 0 ≤ r) (h : r * r = a * a + b * b) : hypot a b = r := by
  have h1 : hypot a b * hypot a b = r * r := by rw [hh.sq, h]
  exact (mul_self_inj (hh.nonneg a b) hr).1 h1

theorem IsHypot.scale {hypot : K → K → K} (hh : IsHypot hypot) (k a b : K) :
    hypot (k * a) (k * b) = |k| * hypot a b := by
  apply hh.eq_of_sq (mul_nonneg (abs_nonneg k) (hh.nonneg a b))
  have h1 : |k| * |k| = k * k := abs_mul_abs_self k
  have h2 := hh.sq a b
  linear_combination (hypot a b * hypot a b) * h1 + (k * k) * h2

theorem IsHypot.ne_zero {hypot : K → K → K} (hh : IsHypot hypot) {a b : K}
    (h : ¬ (a = 0 ∧ b = 0)) : hypot a b ≠ 0 :=
  fun h0 => h ((hh.eq_zero_iff a b).1 h0)

theorem Point.fin_ne {px py qx qy : K} (h : Point.fin px py ≠ Point.fin qx qy) :
    ¬ (px - qx = 0 ∧ py - qy = 0) := by
  rintro ⟨h1, h2⟩
  apply h
  rw [sub_eq_zero.1 h1, sub_eq_zero.1 h2]

theorem Point.midpoint_fin (px py qx qy : K) :
    (Point.fin px py).midpoint (Point.fin qx qy)
      = Point.fin (px + (qx - px) / 2) (py + (qy - py) / 2) := by
  have h2 : (2 : K) ≠ 0 := two_ne_zero
  simp only [Point.midpoint, Point.add, Point.sub, Vector.div, Point.fin, Double.ofNat_eq,
    Double.fin_sub, Double.fin_add, Double.fin_div _ _ h2]

theorem Point.distance_fin (hypot : K → K → K) (x y a b c : K) (h : hypot a b ≠ 0) :
    (Point.fin x y).distance hypot (Line.fin a b c)
      = Double.fin ((a * x + b * y - c) / hypot a b) := by
  simp only [Point.distance, Line.fin, Point.fin, Double.hypot, Double.fin_mul,
    Double.fin_add, Double.fin_sub, Double.fin_div _ _ h]

end Distances

/-- C11, amended. Bisector signed distances, in exact arithmetic with `hypot` the exact
square root: for finite points `p ≠ q` and `l = (p | q)`, the
signed distance `q - l` is `|p - q| / 2`, `p - l` is its negation, and the mid-point
`p + q` has signed distance `0` to `l`. -/
theorem bisector_signed_distances (K : Type) [LinearOrderedField K] (hypot : K → K → K)
    (hh : IsHypot hypot) (px py qx qy : K) (hne : Point.fin px py ≠ Point.fin qx qy) :
    (Point.fin qx qy).distance hypot ((Point.fin px py).axis (Point.fin qx qy))
        = ((Point.fin px py).sub (Point.fin qx qy)).len hypot / 2
    ∧ (Point.fin px py).distance hypot ((Point.fin px py).axis (Point.fin qx qy))
        = -(((Point.fin px py).sub (Point.fin qx qy)).len hypot / 2)
    ∧ (Point.fin px py).distance hypot ((Point.fin px py).axis (Point.fin qx qy))
        = -((Point.fin qx qy).distance hypot ((Point.fin px py).axis (Point.fin qx qy)))
    ∧ ((Point.fin px py).midpoint (Point.fin qx qy)).distance hypot
        ((Point.fin px py).axis (Point.fin qx qy)) = Double.fin 0
    ∧ ((Point.fin px py).sub (Point.fin qx qy)).len hypot / 2 ≠ Double.fin 0 := by
  have h2 : (2 : K) ≠ 0 := two_ne_zero
  have hD0 : hypot (px - qx) (py - qy) ≠ 0 := hh.ne_zero (Point.fin_ne hne)
  have hD2 := hh.sq (px - qx) (py - qy)
  have hH : hypot ((qx - px) * 2) ((qy - py) * 2) = 2 * hypot (px - qx) (py - qy) := by
    apply hh.eq_of_sq (mul_nonneg (by norm_num) (hh.nonneg _ _))
    linear_combination 4 * hD2
  have hH0 : hypot ((qx - px) * 2) ((qy - py) * 2) ≠ 0 := by
    rw [hH]
    exact mul_ne_zero h2 hD0
  have eq : (Point.fin qx qy).distance hypot ((Point.fin px py).axis (Point.fin qx qy))
      = Double.fin (hypot (px - qx) (py - qy) / 2) := by
    rw [Point.axis_fin, Point.distance_fin _ _ _ _ _ _ hH0, hH]
    congr 1
    field_simp
    linear_combination (-2 : K) * hD2
  have ep : (Point.fin px py).distance hypot ((Point.fin px py).axis (Point.fin qx qy))
      = Double.fin (-(hypot (px - qx) (py - qy) / 2)) := by
    rw [Point.axis_fin, Point.distance_fin _ _ _ _ _ _ hH0, hH]
    congr 1
    field_simp
    linear_combination (2 : K) * hD2
  have el : ((Point.fin px py).sub (Point.fin qx qy)).len hypot / 2
      = Double.fin (hypot (px - qx) (py - qy) / 2) := by
    simp only [Point.sub_fin, Vector.len_fin, Double.ofNat_eq, Double.fin_div _ _ h2]
  refine ⟨?_, ?_, ?_, ?_, ?_⟩
  · rw [eq, el]
  · rw [ep, el, Double.neg_fin]
  · rw [ep, eq, Double.neg_fin]
  · rw [Point.midpoint_fin, Point.axis_fin, Point.distance_fin _ _ _ _ _ _ hH0]
    congr 1
    field_simp
    ring
  · rw [el]
    intro h
    injection h with h
    exact hD0 (by linarith)

/-- C11 over the reals with `hypot a b = sqrt (a*a + b*b)` at `p = (0,0)`, `q = (2,0)`:
the mid-point is on the bisector. -/
theorem bisector_signed_distances_witness :
    ((Point.fin (0 : ℝ) 0).midpoint (Point.fin 2 0)).distance
        (fun a b : ℝ => Real.sqrt (a * a + b * b))
        ((Point.fin 0 0).axis (Point.fin 2 0)) = Double.fin 0 :=
  (bisector_signed_distances ℝ _ isHypot_sqrt 0 0 2 0 (by simp [Point.fin])).2.2.2.1

/-! ## Boolean conversions -/

/-- C12, as stated, fails: `Vector(0,0)` converts to `false` (`dx || dy` with both
components zero), so it is not the case that `Point(0,0)` is false while `Vector(0,0)`
is true. -/
theorem point_vector_liveness_counterexample :
    ¬ ((Point.fin (0 : ℚ) 0).toBool = false ∧ (Vector.fin (0 : ℚ) 0).toBool = true) := by
  simp [Vector.toBool, Vector.fin, Double.toBool]

/-- C12, amended. `Point(0,0)` and `Vector(0,0)` both convert to `false`; `Point`
liveness is stricter than `Vector` liveness: whenever `Point(x,y)` converts to `true` so
does `Vector(x,y)`, while `Point(1,0)` converts to `false` and `Vector(1,0)` to `true`. -/
theorem point_liveness_stricter (K : Type) [LinearOrderedField K] :
    (Point.fin (0 : K) 0).toBool = false
    ∧ (Vector.fin (0 : K) 0).toBool = false
    ∧ (∀ x y : Double K, (Point.mk x y).toBool = true → (Vector.mk x y).toBool = true)
    ∧ (Point.fin (1 : K) 0).toBool = false
    ∧ (Vector.fin (1 : K) 0).toBool = true := by
  refine ⟨?_, ?_, ?_, ?_, ?_⟩
  · simp [Point.toBool, Point.fin, Double.isnormal]
  · simp [Vector.toBool, Vector.fin, Double.toBool]
  · intro x y h
    cases x <;> cases y <;>
      simp_all [Point.toBool, Vector.toBool, Double.isnormal, Double.toBool]
  · simp [Point.toBool, Point.fin, Double.isnormal]
  · simp [Vector.toBool, Vector.fin, Double.toBool]

/-- C12 amended, at `(1, 2)` over the rationals: the point is live, hence so is the
vector. -/
theorem point_liveness_stricter_witness :
    (Vector.mk (Double.fin (1 : ℚ)) (Double.fin 2)).toBool = true :=
  (point_liveness_stricter ℚ).2.2.1 _ _ (by simp [Point.toBool, Double.isnormal])

/-! ## Vector normalization -/

section Normalization

variable {K : Type} [LinearOrderedField K]

theorem Vector.normalized_fin (hypot : K → K → K) (dx dy : K) (h : hypot dx dy ≠ 0) :
    (Vector.fin dx dy).normalized hypot
      = Vector.fin (dx / hypot dx dy) (dy / hypot dx dy) := by
  simp only [Vector.normalized, Vector.len, Vector.fin, Double.hypot, Double.toBool,
    Vector.div, Double.fin_div _ _ h, h, ne_eq, not_false_eq_true, decide_True, if_true]

theorem Vector.normalized_zero (hypot : K → K → K) (dx dy : K) (h : hypot dx dy = 0) :
    (Vector.fin dx dy).normalized hypot = Vector.fin dx dy := by
  simp [Vector.normalized, Vector.len, Vector.fin, Double.hypot, Double.toBool, h]

theorem IsHypot.unit_of_div {hypot : K → K → K} (hh : IsHypot hypot) (a b : K)
    (h : hypot a b ≠ 0) : hypot (a / hypot a b) (b / hypot a b) = 1 := by
  apply hh.eq_of_sq zero_le_one
  have h2 := hh.sq a b
  field_simp
  linear_combination h2

theorem Double.eq_self_fin (x : K) : (Double.fin x).eq (Double.fin x) = true := by
  simp [Double.eq]

end Normalization

/-- C13, amended. Vector normalization, in exact arithmetic with `hypot` the exact square
root: for every finite vector `v` other than the zero vector,
`v.normalized ().len ()` is `1` and `v.normalized ()` is a positive multiple of `v`; the
zero vector is returned unchanged, `v.normalized () == v`. -/
theorem vector_normalized_unit (K : Type) [LinearOrderedField K] (hypot : K → K → K)
    (hh : IsHypot hypot) :
    (∀ dx dy : K, ¬ (dx = 0 ∧ dy = 0) →
      ((Vector.fin dx dy).normalized hypot).len hypot = Double.fin 1
      ∧ (((Vector.fin dx dy).normalized hypot).len hypot).eq 1 = true
      ∧ ∃ k : K, 0 < k ∧ (Vector.fin dx dy).normalized hypot = (Vector.fin dx dy).mul (Double.fin k))
    ∧ (Vector.fin 0 0).normalized hypot = Vector.fin 0 0
    ∧ ((Vector.fin 0 0).normalized hypot).eq (Vector.fin 0 0) = true := by
  refine ⟨?_, ?_, ?_⟩
  · intro dx dy hne
    have h0 : hypot dx dy ≠ 0 := hh.ne_zero hne
    have hpos : 0 < hypot dx dy := lt_of_le_of_ne (hh.nonneg dx dy) (Ne.symm h0)
    have hlen : ((Vector.fin dx dy).normalized hypot).len hypot = Double.fin 1 := by
      rw [Vector.normalized_fin hypot dx dy h0, Vector.len_fin, hh.unit_of_div dx dy h0]
    refine ⟨hlen, ?_, (hypot dx dy)⁻¹, inv_pos.2 hpos, ?_⟩
    · rw [hlen]
      simp [Double.eq]
    · rw [Vector.normalized_fin hypot dx dy h0]
      simp only [Vector.mul, Vector.fin, Double.fin_mul, div_eq_mul_inv]
  · exact Vector.normalized_zero hypot 0 0 ((hh.eq_zero_iff 0 0).2 ⟨rfl, rfl⟩)
  · rw [Vector.normalized_zero hypot 0 0 ((hh.eq_zero_iff 0 0).2 ⟨rfl, rfl⟩)]
    simp [Vector.eq, Vector.fin, Double.eq]

/-- C13 over the reals with `hypot a b = sqrt (a*a + b*b)`: the vector `(3, 4)`
normalizes to length `1`. -/
theorem vector_normalized_unit_witness :
    (((Vector.fin (3 : ℝ) 4).normalized (fun a b : ℝ => Real.sqrt (a * a + b * b))).len
      (fun a b : ℝ => Real.sqrt (a * a + b * b))) = Double.fin 1 :=
  ((vector_normalized_unit ℝ _ isHypot_sqrt).1 3 4 (by norm_num)).1

/-! ## Mid-point and the two-point line -/

/-- C14. Mid-point operator: for finite points `p`, `q` the point `m = p + q` satisfies
`|m - p| = |m - q| = |p - q| / 2`, and `p + q == q + p`. -/
theorem midpoint_equidistant (K : Type) [LinearOrderedField K] (hypot : K → K → K)
    (hh : IsHypot hypot) (px py qx qy : K) :
    (((Point.fin px py).midpoint (Point.fin qx qy)).sub (Point.fin px py)).len hypot
        = ((Point.fin px py).sub (Point.fin qx qy)).len hypot / 2
    ∧ (((Point.fin px py).midpoint (Point.fin qx qy)).sub (Point.fin qx qy)).len hypot
        = ((Point.fin px py).sub (Point.fin qx qy)).len hypot / 2
    ∧ (Point.fin px py).midpoint (Point.fin qx qy)
        = (Point.fin qx qy).midpoint (Point.fin px py)
    ∧ ((Point.fin px py).midpoint (Point.fin qx qy)).eq
        ((Point.fin qx qy).midpoint (Point.fin px py)) = true := by
  have h2 : (2 : K) ≠ 0 := two_ne_zero
  have hD2 := hh.sq (px - qx) (py - qy)
  have hr : 0 ≤ hypot (px - qx) (py - qy) / 2 := div_nonneg (hh.nonneg _ _) (by norm_num)
  have hcomm : (Point.fin px py).midpoint (Point.fin qx qy)
      = (Point.fin qx qy).midpoint (Point.fin px py) := by
    rw [Point.midpoint_fin, Point.midpoint_fin]
    simp only [Point.fin]
    congr 2 <;> ring
  refine ⟨?_, ?_, hcomm, ?_⟩
  · simp only [Point.midpoint_fin, Point.sub_fin, Vector.len_fin, Double.ofNat_eq,
      Double.fin_div _ _ h2]
    congr 1
    apply hh.eq_of_sq hr
    field_simp
    linear_combination hD2
  · simp only [Point.midpoint_fin, Point.sub_fin, Vector.len_fin, Double.ofNat_eq,
      Double.fin_div _ _ h2]
    congr 1
    apply hh.eq_of_sq hr
    field_simp
    linear_combination hD2
  · rw [← hcomm, Point.midpoint_fin]
    simp [Point.eq, Point.fin, Double.eq]

/-- C14 over the reals with `hypot a b = sqrt (a*a + b*b)` at `p = (0,0)`, `q = (6,8)`. -/
theorem midpoint_equidistant_witness :
    (((Point.fin (0 : ℝ) 0).midpoint (Point.fin 6 8)).sub (Point.fin 0 0)).len
        (fun a b : ℝ => Real.sqrt (a * a + b * b))
      = ((Point.fin (0 : ℝ) 0).sub (Point.fin 6 8)).len
          (fun a b : ℝ => Real.sqrt (a * a + b * b)) / 2 :=
  (midpoint_equidistant ℝ _ isHypot_sqrt 0 0 6 8).1

/-- C15, amended. Two-point line constructor, in exact arithmetic: for `l = Line (p0, p1)`
the normal `(l.a, l.b)` is
`(p1 - p0).perpendicular ()`; for finite points both `p0` and `p1` satisfy
`l.a*x + l.b*y = l.c`, and `l` is degenerate (`a == 0` and `b == 0`, the `bool` conversion
false) exactly when `p0 == p1`. -/
theorem line_through_two_points (K : Type) [LinearOrderedField K] :
    (∀ p0 p1 : Point K, (Line.ofPoints p0 p1).normal = (p1.sub p0).perpendicular)
    ∧ (∀ x0 y0 x1 y1 : K,
        (Line.ofPoints (Point.fin x0 y0) (Point.fin x1 y1)).a * Double.fin x0
            + (Line.ofPoints (Point.fin x0 y0) (Point.fin x1 y1)).b * Double.fin y0
          = (Line.ofPoints (Point.fin x0 y0) (Point.fin x1 y1)).c
        ∧ (Line.ofPoints (Point.fin x0 y0) (Point.fin x1 y1)).a * Double.fin x1
            + (Line.ofPoints (Point.fin x0 y0) (Point.fin x1 y1)).b * Double.fin y1
          = (Line.ofPoints (Point.fin x0 y0) (Point.fin x1 y1)).c
        ∧ ((Line.ofPoints (Point.fin x0 y0) (Point.fin x1 y1)).toBool = false
            ↔ (Point.fin x0 y0).eq (Point.fin x1 y1) = true)
        ∧ (((Line.ofPoints (Point.fin x0 y0) (Point.fin x1 y1)).a.eq 0
              && (Line.ofPoints (Point.fin x0 y0) (Point.fin x1 y1)).b.eq 0) = true
            ↔ (Point.fin x0 y0).eq (Point.fin x1 y1) = true)
        ∧ ((Point.fin x0 y0).eq (Point.fin x1 y1) = true
            ↔ Point.fin x0 y0 = Point.fin x1 y1)) := by
  refine ⟨fun p0 p1 => rfl, ?_⟩
  intro x0 y0 x1 y1
  have e1 : y1 - y0 = 0 ↔ y0 = y1 := by
    constructor <;> intro h <;> linarith
  have e2 : x1 - x0 = 0 ↔ x0 = x1 := by
    constructor <;> intro h <;> linarith
  refine ⟨?_, ?_, ?_, ?_, ?_⟩
  · simp only [Line.ofPoints, Point.sub, Vector.perpendicular, Point.fin, Double.fin_sub,
      Double.neg_fin, Double.fin_mul, Double.fin_add]
  · simp only [Line.ofPoints, Point.sub, Vector.perpendicular, Point.fin, Double.fin_sub,
      Double.neg_fin, Double.fin_mul, Double.fin_add]
    congr 1
    ring
  · simp only [Line.ofPoints, Line.toBool, Point.sub, Vector.perpendicular, Point.fin,
      Point.eq, Double.eq, Double.toBool, Double.fin_sub, Double.neg_fin]
    simp only [Bool.or_eq_false_iff, Bool.and_eq_true, decide_eq_true_eq, decide_eq_false_iff_not,
      ne_eq, not_not, neg_eq_zero, e1, e2]
    tauto
  · simp only [Line.ofPoints, Point.sub, Vector.perpendicular, Point.fin,
      Point.eq, Double.eq, Double.ofNat_eq, Double.fin_sub, Double.neg_fin]
    simp only [Bool.and_eq_true, decide_eq_true_eq, neg_eq_zero, e1, e2]
    tauto
  · simp only [Point.fin, Point.eq, Double.eq, Bool.and_eq_true, decide_eq_true_eq,
      Point.mk.injEq, Double.fin.injEq]

/-! ## Line normalization and scaling -/

section LineScaling

variable {K : Type} [LinearOrderedField K]

theorem Line.normalized_nondegenerate (hypot : K → K → K) (a b c : K) (h : hypot a b ≠ 0) :
    (Line.fin a b c).normalized hypot
      = Line.fin (a / hypot a b) (b / hypot a b) (c / hypot a b) := by
  simp only [Line.normalized, Line.normal, Vector.len, Line.fin, Double.hypot, Double.toBool,
    Double.fin_div _ _ h, h, ne_eq, not_false_eq_true, decide_True, if_true]

theorem Line.normalized_degenerate (hypot : K → K → K) (a b : K) (c : Double K)
    (h : hypot a b = 0) :
    (Line.mk (Double.fin a) (Double.fin b) c).normalized hypot
      = Line.mk (Double.fin a) (Double.fin b) c := by
  simp [Line.normalized, Line.normal, Vector.len, Double.hypot, Double.toBool, h]

/-- The signed distance to a scaled line, for a non-zero factor `k`. -/
theorem Point.distance_scaled {hypot : K → K → K} (hh : IsHypot hypot) (x y a b c k : K)
    (hab : ¬ (a = 0 ∧ b = 0)) (hk : k ≠ 0) :
    (Point.fin x y).distance hypot (Line.fin (k * a) (k * b) (k * c))
      = Double.fin (k / |k| * ((a * x + b * y - c) / hypot a b)) := by
  have h0 : hypot a b ≠ 0 := hh.ne_zero hab
  have hk0 : |k| ≠ 0 := abs_ne_zero.2 hk
  have hs : hypot (k * a) (k * b) ≠ 0 := by
    rw [hh.scale]
    exact mul_ne_zero hk0 h0
  rw [Point.distance_fin _ _ _ _ _ _ hs, hh.scale]
  congr 1
  field_simp
  ring

end LineScaling

/-- C16, amended. Signed distance is independent of the scaling of the line, in exact
arithmetic with `hypot` the exact square root: for a finite point
`p`, a finite line `l = Line (a,b,c)` with `(a,b) ≠ (0,0)` and `k > 0`,
`p - Line (k*a, k*b, k*c)` equals `p - l`, and `p - l.normalized ()` equals `p - l`; for
`k < 0` the value is negated; so for every `k ≠ 0` the magnitude is the same. -/
theorem distance_scale_invariant (K : Type) [LinearOrderedField K] (hypot : K → K → K)
    (hh : IsHypot hypot) (x y a b c : K) (hab : ¬ (a = 0 ∧ b = 0)) :
    (∀ k : K, 0 < k →
      (Point.fin x y).distance hypot (Line.fin (k * a) (k * b) (k * c))
        = (Point.fin x y).distance hypot (Line.fin a b c))
    ∧ (Point.fin x y).distance hypot ((Line.fin a b c).normalized hypot)
        = (Point.fin x y).distance hypot (Line.fin a b c)
    ∧ (∀ k : K, k < 0 →
      (Point.fin x y).distance hypot (Line.fin (k * a) (k * b) (k * c))
        = -((Point.fin x y).distance hypot (Line.fin a b c)))
    ∧ (∀ k : K, k ≠ 0 →
      |((Point.fin x y).distance hypot (Line.fin (k * a) (k * b) (k * c))).value|
        = |((Point.fin x y).distance hypot (Line.fin a b c)).value|) := by
  have h0 : hypot a b ≠ 0 := hh.ne_zero hab
  have hd := Point.distance_fin hypot x y a b c h0
  refine ⟨?_, ?_, ?_, ?_⟩
  · intro k hk
    rw [Point.distance_scaled hh x y a b c k hab hk.ne', hd, abs_of_pos hk,
      div_self hk.ne', one_mul]
  · have h1 := hh.unit_of_div a b h0
    have h1' : hypot (a / hypot a b) (b / hypot a b) ≠ 0 := by
      rw [h1]
      exact one_ne_zero
    rw [Line.normalized_nondegenerate hypot a b c h0, Point.distance_fin _ _ _ _ _ _ h1', h1, hd]
    congr 1
    field_simp
  · intro k hk
    have hkk : k / |k| = -1 := by
      rw [abs_of_neg hk, div_neg, div_self hk.ne]
    rw [Point.distance_scaled hh x y a b c k hab hk.ne, hd, hkk, Double.neg_fin]
    congr 1
    ring
  · intro k hk
    rw [Point.distance_scaled hh x y a b c k hab hk, hd]
    simp only [Double.value]
    rw [abs_mul, abs_div, abs_abs, div_self (abs_ne_zero.2 hk), one_mul]

/-- C16 over the reals with `hypot a b = sqrt (a*a + b*b)`: the distance of `(1, 2)` to
`3x + 4y = 5` and to `6x + 8y = 10`. -/
theorem distance_scale_invariant_witness :
    (Point.fin (1 : ℝ) 2).distance (fun a b : ℝ => Real.sqrt (a * a + b * b))
        (Line.fin (2 * 3) (2 * 4) (2 * 5))
      = (Point.fin (1 : ℝ) 2).distance (fun a b : ℝ => Real.sqrt (a * a + b * b))
          (Line.fin 3 4 5) :=
  (distance_scale_invariant ℝ _ isHypot_sqrt 1 2 3 4 5 (by norm_num)).1 2 (by norm_num)

/-- C17, amended. Line normalization, in exact arithmetic with `hypot` the exact square
root: for a finite line `l` with `(a,b) ≠ (0,0)`,
`n = l.normalized ()` has `n.a^2 + n.b^2 = 1`, describes the same point set, and
`n.normalized ()` is `n`; a degenerate line (`a == 0` and `b == 0`) is returned
unchanged, whatever its `c`. -/
theorem line_normalized_correct (K : Type) [LinearOrderedField K] (hypot : K → K → K)
    (hh : IsHypot hypot) :
    (∀ a b c : K, ¬ (a = 0 ∧ b = 0) →
      ∃ na nb nc : K, (Line.fin a b c).normalized hypot = Line.fin na nb nc
        ∧ na ^ 2 + nb ^ 2 = 1
        ∧ (∀ x y : K, na * x + nb * y = nc ↔ a * x + b * y = c)
        ∧ (Line.fin na nb nc).normalized hypot = Line.fin na nb nc)
    ∧ (∀ c : Double K, (Line.mk (Double.fin 0) (Double.fin 0) c).normalized hypot
        = Line.mk (Double.fin 0) (Double.fin 0) c) := by
  refine ⟨?_, ?_⟩
  · intro a b c hab
    have h0 : hypot a b ≠ 0 := hh.ne_zero hab
    have h1 := hh.unit_of_div a b h0
    have h2 := hh.sq a b
    refine ⟨a / hypot a b, b / hypot a b, c / hypot a b,
      Line.normalized_nondegenerate hypot a b c h0, ?_, ?_, ?_⟩
    · field_simp
      linear_combination -h2
    · intro x y
      constructor
      · intro h
        field_simp at h
        exact h
      · intro h
        field_simp
        exact h
    · have h1' : hypot (a / hypot a b) (b / hypot a b) ≠ 0 := by
        rw [h1]
        exact one_ne_zero
      rw [Line.normalized_nondegenerate hypot _ _ _ h1', h1]
      simp only [div_one]
  · intro c
    exact Line.normalized_degenerate hypot 0 0 c ((hh.eq_zero_iff 0 0).2 ⟨rfl, rfl⟩)

/-- C17 over the reals with `hypot a b = sqrt (a*a + b*b)`: the line `3x + 4y = 10`
normalizes to a line with unit normal. -/
theorem line_normalized_correct_witness :
    ∃ na nb nc : ℝ,
      (Line.fin (3 : ℝ) 4 10).normalized (fun a b : ℝ => Real.sqrt (a * a + b * b))
        = Line.fin na nb nc ∧ na ^ 2 + nb ^ 2 = 1 := by
  obtain ⟨na, nb, nc, h1, h2, _, _⟩ :=
    (line_normalized_correct ℝ _ isHypot_sqrt).1 3 4 10 (by norm_num)
  exact ⟨na, nb, nc, h1, h2⟩

/-! ## Perpendicular, Bezier normal, rebase -/

/-- C19. `Bezier::normal` is not in general perpendicular to the curve:
`Bezier((0,0),(0,1),(1,1),(1,0))` at `t = 0` has tangent `(0,3)` and normal `(6,-6)`,
their dot product is `-18`, not `0`, and the normal is no scalar multiple of
`tangent(0).perpendicular ()`. -/
theorem bezier_normal_not_perpendicular (K : Type) [LinearOrderedField K] :
    (Bezier.mk (Point.fin (0 : K) 0) (Point.fin 0 1) (Point.fin 1 1)
        (Point.fin 1 0)).tangent (Double.fin 0) = Vector.fin 0 3
    ∧ (Bezier.mk (Point.fin (0 : K) 0) (Point.fin 0 1) (Point.fin 1 1)
        (Point.fin 1 0)).normal (Double.fin 0) = Vector.fin 6 (-6)
    ∧ ((Bezier.mk (Point.fin (0 : K) 0) (Point.fin 0 1) (Point.fin 1 1)
          (Point.fin 1 0)).normal (Double.fin 0)).dx
        * ((Bezier.mk (Point.fin (0 : K) 0) (Point.fin 0 1) (Point.fin 1 1)
          (Point.fin 1 0)).tangent (Double.fin 0)).dx
        + ((Bezier.mk (Point.fin (0 : K) 0) (Point.fin 0 1) (Point.fin 1 1)
          (Point.fin 1 0)).normal (Double.fin 0)).dy
        * ((Bezier.mk (Point.fin (0 : K) 0) (Point.fin 0 1) (Point.fin 1 1)
          (Point.fin 1 0)).tangent (Double.fin 0)).dy = Double.fin (-18)
    ∧ Double.fin (-18 : K) ≠ Double.fin 0
    ∧ ¬ ∃ k : Double K,
        (Bezier.mk (Point.fin (0 : K) 0) (Point.fin 0 1) (Point.fin 1 1)
            (Point.fin 1 0)).normal (Double.fin 0)
          = ((Bezier.mk (Point.fin (0 : K) 0) (Point.fin 0 1) (Point.fin 1 1)
            (Point.fin 1 0)).tangent (Double.fin 0)).perpendicular.mul k := by
  have ht := Bezier.tangent_fin (0 : K) 0 0 1 1 1 1 0 0
  have hn := Bezier.normal_fin (0 : K) 0 0 1 1 1 1 0 0
  have ht3 : (Bezier.mk (Point.fin (0 : K) 0) (Point.fin 0 1) (Point.fin 1 1)
      (Point.fin 1 0)).tangent (Double.fin 0) = Vector.fin 0 3 := by
    rw [ht]
    norm_num [Vector.fin]
  have hn6 : (Bezier.mk (Point.fin (0 : K) 0) (Point.fin 0 1) (Point.fin 1 1)
      (Point.fin 1 0)).normal (Double.fin 0) = Vector.fin 6 (-6) := by
    rw [hn]
    norm_num [Vector.fin]
  refine ⟨ht3, hn6, ?_, ?_, ?_⟩
  · rw [ht3, hn6]
    simp only [Vector.fin, Double.fin_mul, Double.fin_add]
    congr 1
    norm_num
  · intro h
    injection h with h
    norm_num at h
  · rintro ⟨k, hk⟩
    rw [ht3, hn6] at hk
    have hy := congrArg Vector.dy hk
    simp only [Vector.fin, Vector.perpendicular, Vector.mul] at hy
    cases k with
    | fin k =>
      rw [Double.fin_mul] at hy
      injection hy with hy
      norm_num at hy
    | pinf =>
      have e : (Double.fin (0 : K) * Double.pinf) = Double.nan := by
        show Double.mul (Double.fin 0) Double.pinf = Double.nan
        simp [Double.mul, Double.signedInf]
      rw [e] at hy
      cases hy
    | ninf =>
      have e : (Double.fin (0 : K) * Double.ninf) = Double.nan := by
        show Double.mul (Double.fin 0) Double.ninf = Double.nan
        simp [Double.mul, Double.signedInf]
      rw [e] at hy
      cases hy
    | nan =>
      have e : (Double.fin (0 : K) * Double.nan) = Double.nan := rfl
      rw [e] at hy
      cases hy

theorem Vector.rebase_fin {K : Type} [LinearOrderedField K] (vx vy ux uy : K) :
    (Vector.fin vx vy).rebase (Vector.fin ux uy)
      = Vector.fin (vx * ux + vy * uy) (vx * (-uy) + vy * ux) := by
  simp only [Vector.rebase, Vector.rebaseXY, Vector.perpendicular, Vector.fin,
    Double.neg_fin, Double.fin_mul, Double.fin_add]

/-- C20. Single-axis rebase scales length by the basis length: `v.rebase (bx)` is
`(v . bx, v . bx.perpendicular ())`; for finite vectors
`v.rebase (bx).len () = v.len () * bx.len ()`, so a unit `bx` preserves length; and
`v.rebase (Vector (1,0)) == v`. -/
theorem rebase_scales_length (K : Type) [LinearOrderedField K] (hypot : K → K → K)
    (hh : IsHypot hypot) :
    (∀ v u : Vector K, v.rebase u
      = ⟨v.dx * u.dx + v.dy * u.dy,
         v.dx * u.perpendicular.dx + v.dy * u.perpendicular.dy⟩)
    ∧ (∀ vx vy ux uy : K,
        ((Vector.fin vx vy).rebase (Vector.fin ux uy)).len hypot
          = (Vector.fin vx vy).len hypot * (Vector.fin ux uy).len hypot)
    ∧ (∀ vx vy ux uy : K, (Vector.fin ux uy).len hypot = Double.fin 1 →
        ((Vector.fin vx vy).rebase (Vector.fin ux uy)).len hypot
          = (Vector.fin vx vy).len hypot)
    ∧ (∀ vx vy : K, (Vector.fin vx vy).rebase (Vector.fin 1 0) = Vector.fin vx vy)
    ∧ (∀ vx vy : K,
        ((Vector.fin vx vy).rebase (Vector.fin 1 0)).eq (Vector.fin vx vy) = true) := by
  have hlen : ∀ vx vy ux uy : K,
      ((Vector.fin vx vy).rebase (Vector.fin ux uy)).len hypot
        = (Vector.fin vx vy).len hypot * (Vector.fin ux uy).len hypot := by
    intro vx vy ux uy
    rw [Vector.rebase_fin, Vector.len_fin, Vector.len_fin, Vector.len_fin, Double.fin_mul]
    congr 1
    apply hh.eq_of_sq (mul_nonneg (hh.nonneg _ _) (hh.nonneg _ _))
    have hv := hh.sq vx vy
    have hu := hh.sq ux uy
    linear_combination (hypot ux uy * hypot ux uy) * hv + (vx * vx + vy * vy) * hu
  have hone : ∀ vx vy : K,
      (Vector.fin vx vy).rebase (Vector.fin 1 0) = Vector.fin vx vy := by
    intro vx vy
    rw [Vector.rebase_fin]
    simp only [Vector.fin]
    congr 2 <;> ring
  refine ⟨fun v u => rfl, hlen, ?_, hone, ?_⟩
  · intro vx vy ux uy h1
    rw [hlen, h1, Vector.len_fin, Double.fin_mul, mul_one]
  · intro vx vy
    rw [hone]
    simp [Vector.eq, Vector.fin, Double.eq]

/-- C20 over the reals with `hypot a b = sqrt (a*a + b*b)`: rebasing `(1, 2)` on
`(3, 4)`. -/
theorem rebase_scales_length_witness :
    ((Vector.fin (1 : ℝ) 2).rebase (Vector.fin 3 4)).len
        (fun a b : ℝ => Real.sqrt (a * a + b * b))
      = (Vector.fin (1 : ℝ) 2).len (fun a b : ℝ => Real.sqrt (a * a + b * b))
          * (Vector.fin (3 : ℝ) 4).len (fun a b : ℝ => Real.sqrt (a * a + b * b)) :=
  (rebase_scales_length ℝ _ isHypot_sqrt).2.1 1 2 3 4

/-! ## Evaluation in binary64

The statements above hold in exact arithmetic.  The theorems below evaluate the same
functions on doubles, at inputs where rounding or overflow makes the result differ. -/

namespace Binary64

/-! ### Known values of the binary64 operations -/

/-- The literal `0.1` is the double `0x3FB999999999999A`. -/
theorem ofRat_tenth : F64.ofRat 1 10 = F64.fin 0x1999999999999A (-56) := by decide!

/-- Ties go to the even significand: `1 + 2^-53` is `1`, `1 + 3 * 2^-53` is `1 + 2^-51`. -/
theorem add_ties_to_even :
    (1 + F64.pow2 (-53) : F64) = 1
    ∧ (1 + F64.ofRat 3 (2 ^ 53) : F64) = F64.fin (2 ^ 52 + 2) (-52) := by decide!

/-- Overflow and underflow: `2^600 * 2^600` is `+inf`, `2^-600 * 2^-600` is `0`, and the
least positive double is `2^-1074`. -/
theorem mul_overflow_underflow :
    F64.pow2 600 * F64.pow2 600 = F64.pinf
    ∧ F64.pow2 (-600) * F64.pow2 (-600) = 0
    ∧ F64.pow2 (-1074) = F64.fin 1 (-1074)
    ∧ F64.pow2 (-1075) = 0 := by decide!

/-- The values `hypot (1, 1) = 0x3FF6A09E667F3BCD` and `hypot (3, 4) = 5`. -/
theorem hypot_values :
    F64.hypot 1 1 = F64.fin 0x16A09E667F3BCD (-52)
    ∧ F64.hypot 3 4 = 5 := by decide!

/-! ### Line intersection and circumcircle -/

/-- C2, as stated, fails on doubles. `Line(2^600, 0, 2^600) + Line(0, 1, 2^600)` has
finite coefficients and the non-zero finite determinant `2^600`, and the result is
`Point(1, inf)`: the product `2^600 * 2^600` overflows. And the parallel lines
`Line(2^600, 2^600, 0)`, `Line(2^600, 2^600, 1)` have the computed determinant
`inf - inf = NaN`, and the result is `Point(NaN, NaN)`, not `Point(inf, inf)`. -/
theorem line_intersection_sentinel_counterexample :
    (Line.mk (F64.pow2 600) 0 (F64.pow2 600)).det (Line.mk 0 1 (F64.pow2 600)) = F64.pow2 600
    ∧ (F64.pow2 600).toBool = true
    ∧ (F64.pow2 600).isFinite = true
    ∧ (Line.mk (F64.pow2 600) 0 (F64.pow2 600)).intersect (Line.mk 0 1 (F64.pow2 600))
        = ⟨1, F64.INFINITY⟩
    ∧ (Line.mk (F64.pow2 600) (F64.pow2 600) 0).det (Line.mk (F64.pow2 600) (F64.pow2 600) 1)
        = F64.nan
    ∧ (Line.mk (F64.pow2 600) (F64.pow2 600) 0).intersect
        (Line.mk (F64.pow2 600) (F64.pow2 600) 1) = ⟨F64.nan, F64.nan⟩ := by decide!

/-- C4, as stated, fails on doubles. The points `(-1,-3)`, `(2^-53, 3 * 2^-53)`, `(1,3)`
are doubles on the line `y = 3x`, yet `p1 - p0` rounds to `(1, 3 + 2^-51)`, the
determinant of the two bisectors is computed as `2^-49`, and `Circle(p0, p1, p2)` has the
finite centre `(67553994410557440, -22517998136852480)`, not `Point(inf, inf)`. -/
theorem circumcircle_collinear_sentinel_counterexample :
    (Point.mk (F64.pow2 (-53)) (F64.ofRat 3 (2 ^ 53))).sub (Point.mk (-1) (-3))
        = ⟨1, F64.fin (3 * 2 ^ 51 + 1) (-51)⟩
    ∧ ((Point.mk (-1) (-3)).axis (Point.mk (F64.pow2 (-53)) (F64.ofRat 3 (2 ^ 53)))).det
        ((Point.mk 1 3).axis (Point.mk (F64.pow2 (-53)) (F64.ofRat 3 (2 ^ 53))))
        = F64.pow2 (-49)
    ∧ (Circle.ofPoints (Point.mk (-1) (-3)) (Point.mk (F64.pow2 (-53)) (F64.ofRat 3 (2 ^ 53)))
        (Point.mk 1 3)).c
        = ⟨F64.ofRat 67553994410557440 1, F64.ofRat (-22517998136852480) 1⟩
    ∧ (Circle.ofPoints (Point.mk (-1) (-3)) (Point.mk (F64.pow2 (-53)) (F64.ofRat 3 (2 ^ 53)))
        (Point.mk 1 3)).c ≠ ⟨F64.INFINITY, F64.INFINITY⟩ := by decide!

/-! ### Signed distance and normalization -/

/-- C11, as stated, fails on doubles. For `p = (-1, 0.3)`, `q = (-0.8, 0.7)` and
`l = (p | q)`, the mid-point `p + q` has signed distance `1.551583845779546e-17` to `l`,
not `0`, and `q - l = 0.22360679774997896` differs from
`|p - q| / 2 = 0.22360679774997894`. -/
theorem bisector_signed_distances_counterexample :
    ((Point.mk (-1) (F64.ofRat 3 10)).midpoint
        (Point.mk (F64.ofRat (-8) 10) (F64.ofRat 7 10))).distance
        ((Point.mk (-1) (F64.ofRat 3 10)).axis (Point.mk (F64.ofRat (-8) 10) (F64.ofRat 7 10)))
      = F64.ofRat 1551583845779546 (10 ^ 32)
    ∧ F64.ofRat 1551583845779546 (10 ^ 32) ≠ 0
    ∧ (Point.mk (F64.ofRat (-8) 10) (F64.ofRat 7 10)).distance
        ((Point.mk (-1) (F64.ofRat 3 10)).axis (Point.mk (F64.ofRat (-8) 10) (F64.ofRat 7 10)))
      = F64.ofRat 22360679774997896 (10 ^ 17)
    ∧ ((Point.mk (-1) (F64.ofRat 3 10)).sub
        (Point.mk (F64.ofRat (-8) 10) (F64.ofRat 7 10))).len / 2
      = F64.ofRat 22360679774997894 (10 ^ 17)
    ∧ F64.ofRat 22360679774997896 (10 ^ 17) ≠ F64.ofRat 22360679774997894 (10 ^ 17) := by
  decide!

/-- C13, as stated, fails on doubles. `Vector(1,1).normalized ()` is
`(0.7071067811865475, 0.7071067811865475)` and its `len ()` is `0.9999999999999999`, not
`1`. And for `v = (2^1023, 15 * 2^1020)` the length `17 * 2^1020` overflows, `v.len ()`
is `inf`, `v.normalized ()` is `(0, 0)` and its `len ()` is `0`. -/
theorem vector_normalized_unit_counterexample :
    (Vector.mk 1 1).normalized
        = ⟨F64.ofRat 7071067811865475 (10 ^ 16), F64.ofRat 7071067811865475 (10 ^ 16)⟩
    ∧ (Vector.mk 1 1).normalized.len = F64.ofRat 9999999999999999 (10 ^ 16)
    ∧ F64.ofRat 9999999999999999 (10 ^ 16) ≠ 1
    ∧ (Vector.mk (F64.pow2 1023) (F64.ofRat (15 * 2 ^ 1020) 1)).len = F64.pinf
    ∧ (Vector.mk (F64.pow2 1023) (F64.ofRat (15 * 2 ^ 1020) 1)).normalized = ⟨0, 0⟩
    ∧ (Vector.mk (F64.pow2 1023) (F64.ofRat (15 * 2 ^ 1020) 1)).normalized.len = 0 := by
  decide!

/-- C15, as stated, fails on doubles. For `l = Line((0.1, 0.2), (0.3, 0.7))` the value
`l.a * x + l.b * y` at `p1` is `-0.009999999999999981`, while `l.c` is
`-0.009999999999999995`. -/
theorem line_through_two_points_counterexample :
    (Line.ofPoints (Point.mk (F64.ofRat 1 10) (F64.ofRat 2 10))
        (Point.mk (F64.ofRat 3 10) (F64.ofRat 7 10))).a * F64.ofRat 3 10
      + (Line.ofPoints (Point.mk (F64.ofRat 1 10) (F64.ofRat 2 10))
        (Point.mk (F64.ofRat 3 10) (F64.ofRat 7 10))).b * F64.ofRat 7 10
      = F64.ofRat (-9999999999999981) (10 ^ 18)
    ∧ (Line.ofPoints (Point.mk (F64.ofRat 1 10) (F64.ofRat 2 10))
        (Point.mk (F64.ofRat 3 10) (F64.ofRat 7 10))).c
      = F64.ofRat (-9999999999999995) (10 ^ 18)
    ∧ F64.ofRat (-9999999999999981) (10 ^ 18) ≠ F64.ofRat (-9999999999999995) (10 ^ 18) := by
  decide!

/-- C16, as stated, fails on doubles. `Line(3,4,5).normalized ()` is `(0.6, 0.8, 1)`, and
`Point(1,2) - Line(3,4,5).normalized ()` is `1.2000000000000002`, while
`Point(1,2) - Line(3,4,5)` is `1.2`. -/
theorem distance_scale_invariant_counterexample :
    (Line.mk 3 4 5).normalized = ⟨F64.ofRat 6 10, F64.ofRat 8 10, 1⟩
    ∧ (Point.mk 1 2).distance (Line.mk 3 4 5).normalized
        = F64.ofRat 12000000000000002 (10 ^ 16)
    ∧ (Point.mk 1 2).distance (Line.mk 3 4 5) = F64.ofRat 12 10
    ∧ F64.ofRat 12000000000000002 (10 ^ 16) ≠ F64.ofRat 12 10 := by
  decide!

/-- C17, as stated, fails on doubles. `n = Line(1,1,0).normalized ()` has
`n.a = n.b = 6369051672525772 * 2^-53 = 0.7071067811865475`, so `n.a^2 + n.b^2` is not
`1` (it is computed as `0.9999999999999998`), and `n.normalized ()` is
`(0.7071067811865476, 0.7071067811865476, 0)`, which is not `n`. -/
theorem line_normalized_correct_counterexample :
    (Line.mk 1 1 0).normalized
        = ⟨F64.fin 6369051672525772 (-53), F64.fin 6369051672525772 (-53), 0⟩
    ∧ 6369051672525772 ^ 2 + 6369051672525772 ^ 2 ≠ (2 ^ 53) ^ 2
    ∧ (Line.mk 1 1 0).normalized.a * (Line.mk 1 1 0).normalized.a
        + (Line.mk 1 1 0).normalized.b * (Line.mk 1 1 0).normalized.b
        = F64.ofRat 9999999999999998 (10 ^ 16)
    ∧ (Line.mk 1 1 0).normalized.normalized
        = ⟨F64.ofRat 7071067811865476 (10 ^ 16), F64.ofRat 7071067811865476 (10 ^ 16), 0⟩
    ∧ (Line.mk 1 1 0).normalized.normalized ≠ (Line.mk 1 1 0).normalized := by
  decide!

end Binary64

end Glyphy
